import Mathlib

set_option maxHeartbeats 2000000
set_option maxRecDepth 10000

unseal Rat.add Rat.mul Rat.inv Rat.sub Rat.ofScientific

/-! Verification development for the fast-cma-es C++ optimizers
(ldeoptimizer.cpp and modeoptimizer.cpp): a shallow embedding of the two
engines over rational arithmetic.  Stateful code is explicit state
passing; the seeded random generator, the floating-point pow function and
the completion order of the parallel evaluator are oracle parameters of
the embedding; rejection-sampling loops carry fuel and return none when
it runs out. -/

/-- Model of a C++ double at the objective-function boundary: a finite
rational value, a NaN, or a signed infinity. -/
inductive D where
  | fin (q : ℚ)
  | nan
  | pinf
  | ninf
deriving DecidableEq, Repr

/-- Model of std isfinite on a double. -/
def D.isFiniteD : D → Bool
  | .fin _ => true
  | _ => false

/-- The literal 1E99 that replaces non-finite objective values. -/
def QE99 : ℚ := ((10 ^ 99 : ℕ) : ℚ)

/-- Exact value of DBL_MAX for IEEE binary64. -/
def DBL_MAX : ℚ := ((9007199254740991 * 2 ^ 971 : ℕ) : ℚ)

/-- Coercion applied to each objective result component: a NaN or
non-finite value is replaced by 1E99 (ldeoptimizer.cpp lines 157-160). -/
def coerceD : D → ℚ
  | .fin q => q
  | _ => QE99

/-- Truncation toward zero, the C (int) cast of a double. -/
def cTrunc (q : ℚ) : ℤ := if 0 ≤ q then ⌊q⌋ else ⌈q⌉

/-- State-and-failure monad of the embedding. -/
def M (σ α : Type) : Type := σ → Option (α × σ)

def pureM {σ α : Type} (a : α) : M σ α := fun s => some (a, s)

def bindM {σ α β : Type} (m : M σ α) (f : α → M σ β) : M σ β := fun s =>
  match m s with
  | none => none
  | some (a, s1) => f a s1

def failM {σ α : Type} : M σ α := fun _ => none

def getM {σ : Type} : M σ σ := fun s => some (s, s)

def setM {σ : Type} (f : σ → σ) : M σ Unit := fun s => some ((), f s)

/-- Pointwise update of a vector represented as a function. -/
def upd {α : Type} (f : Nat → α) (j : Nat) (v : α) : Nat → α :=
  fun k => if k = j then v else f k

/-- The computation m increases the counter cnt by at most k whenever it
succeeds. -/
def EvBnd {σ α : Type} (cnt : σ → Nat) (m : M σ α) (k : Nat) : Prop :=
  ∀ s a s', m s = some (a, s') → cnt s' ≤ cnt s + k

namespace LDE

/-- Static data of one LDeOptimizer run: the problem, the engine
parameters after constructor defaulting, the vectors the Fitness
constructor derives, and the oracle stream R standing for the seeded
random generator (entry n is the n-th variate drawn: a uniform sample for
a distr_01 draw, a standard normal sample for a gauss_01 draw). -/
structure Ctx where
  dim : Nat
  func : List ℚ → D
  bounds : Option ((Nat → ℚ) × (Nat → ℚ))
  R : Nat → ℚ
  popsize : Nat
  maxEvaluations : Nat
  keep : ℚ
  stopfitness : D
  F0 : ℚ
  CR0 : ℚ
  min_mutate : ℚ
  max_mutate : ℚ
  isInt : Option (Nat → Bool)
  sigma0 : Nat → ℚ
  maxSigma : Nat → ℚ
  guess : Nat → ℚ

/-- Mutable state of the Fitness wrapper and the LDeOptimizer.  popX p is
column p of the population.  evalLog instruments the embedding: it
records every decision vector handed to the user objective. -/
structure St where
  idx : Nat
  evalCount : Nat
  funcCalls : Nat
  evalLog : List (List ℚ)
  xmean : Nat → ℚ
  sigma : Nat → ℚ
  popX : Nat → Nat → ℚ
  popY : Nat → ℚ
  popIter : Nat → Nat
  bestI : Nat
  bestY : ℚ
  bestX : Nat → ℚ
  iterations : Nat
  stop : Nat

variable (C : Ctx)

/-- Draw the next variate from the random stream. -/
def nextR : M St ℚ := fun s => some (C.R s.idx, { s with idx := s.idx + 1 })

/-- Uniform draw distr_01. -/
def rnd01 : M St ℚ := nextR C

/-- rndInt: (int)(max * distr_01(*rs)). -/
def rndInt (mx : Nat) : M St Nat :=
  bindM (rnd01 C) (fun r => pureM (cTrunc ((mx : ℚ) * r)).toNat)

/-- normreal: gauss_01(rs) * sdev + mean. -/
def normreal (mean sdev : ℚ) : M St ℚ :=
  bindM (nextR C) (fun g => pureM (g * sdev + mean))

/-- feasible (ldeoptimizer.cpp line 127): no bounds, or within them. -/
def feasible (i : Nat) (x : ℚ) : Bool :=
  match C.bounds with
  | none => true
  | some (lo, hi) => decide (lo i ≤ x) && decide (x ≤ hi i)

/-- getClosestFeasible: X.cwiseMin(upper).cwiseMax(lower), the clamp of
each coordinate into the box; identity without bounds. -/
def getClosestFeasible (X : Nat → ℚ) : Nat → ℚ :=
  match C.bounds with
  | none => X
  | some (lo, hi) => fun i => max (lo i) (min (X i) (hi i))

/-- Rejection loop of normXi: resample from the selected distribution
until the coordinate is feasible; fuel bounds the attempts. -/
def normXiLoop (useSigma0 : Bool) (i : Nat) : Nat → M St ℚ
  | 0 => failM
  | fuel + 1 =>
    bindM getM (fun s =>
    bindM (normreal C (s.xmean i) (if useSigma0 then C.sigma0 i else s.sigma i))
      (fun nx =>
      if feasible C i nx then pureM nx else normXiLoop useSigma0 i fuel))

/-- normXi (ldeoptimizer.cpp lines 113-125): with probability 0.5 sample
from N(xmean, sigma0), else from N(xmean, sigma); reject until
feasible. -/
def normXi (fuel i : Nat) : M St ℚ :=
  bindM (rnd01 C) (fun r =>
    if r < 1 / 2 then normXiLoop C true i fuel else normXiLoop C false i fuel)

/-- Sequence of dim standard normal draws (the EigenRand normal vector). -/
def drawN : Nat → M St (List ℚ)
  | 0 => pureM []
  | n + 1 =>
    bindM (nextR C) (fun g => bindM (drawN n) (fun gs => pureM (g :: gs)))

/-- normalVec: mean + sdev ⊙ standard-normal vector. -/
def normalVec (mean sdev : Nat → ℚ) : M St (Nat → ℚ) :=
  bindM (drawN C C.dim) (fun gs => pureM (fun i => gs.getD i 0 * sdev i + mean i))

/-- normX (ldeoptimizer.cpp lines 107-111): choose sigma0 or sigma with
probability 0.5, then clamp the normal sample with getClosestFeasible. -/
def normX : M St (Nat → ℚ) :=
  bindM (rnd01 C) (fun r =>
  bindM getM (fun s =>
  if r < 1 / 2 then
    bindM (normalVec C s.xmean C.sigma0) (fun v => pureM (getClosestFeasible C v))
  else
    bindM (normalVec C s.xmean s.sigma) (fun v => pureM (getClosestFeasible C v))))

/-- eval (ldeoptimizer.cpp lines 153-163): call the user objective once,
coerce a NaN or non-finite result to 1E99, bump the evaluation counter
and return the coerced value. -/
def eval (X : Nat → ℚ) : M St ℚ := fun s =>
  let xs := (List.range C.dim).map X
  let y := coerceD (C.func xs)
  some (y, { s with
    evalCount := s.evalCount + 1
    funcCalls := s.funcCalls + 1
    evalLog := s.evalLog ++ [xs] })

/-- updateSigma: sigma ← min(|xmean − X| · 0.5, maxSigma) and
xmean ← X. -/
def updateSigma (X : Nat → ℚ) : M St Unit :=
  setM (fun s => { s with
    sigma := fun i => min (|s.xmean i - X i| * (1 / 2)) (C.maxSigma i)
    xmean := X })

/-- Per-coordinate loop of modify: each integer coordinate is resampled
with probability to_mutate / n_ints by normXi and truncated with the C
(int) cast. -/
def mutLoop (ints : Nat → Bool) (nInts toMut : ℚ) (fuel : Nat) :
    List Nat → (Nat → ℚ) → M St (Nat → ℚ)
  | [], x => pureM x
  | i :: is, x =>
    if ints i then
      bindM (rnd01 C) (fun c =>
        if c < toMut / nInts then
          bindM (normXi C fuel i) (fun v =>
            mutLoop ints nInts toMut fuel is (upd x i ((cTrunc v : ℤ) : ℚ)))
        else mutLoop ints nInts toMut fuel is x)
    else mutLoop ints nInts toMut fuel is x

/-- modify (ldeoptimizer.cpp lines 247-260): integer mutation. -/
def modify (fuel : Nat) (x : Nat → ℚ) : M St (Nat → ℚ) :=
  match C.isInt with
  | none => pureM x
  | some ints =>
    let nInts : ℚ := (((List.range C.dim).filter (fun i => ints i)).length : ℚ)
    bindM (rnd01 C) (fun r =>
      mutLoop C ints nInts (C.min_mutate + r * (C.max_mutate - C.min_mutate))
        fuel (List.range C.dim) x)

/-- next_improve: the temporal-locality probe xb + (x − xi)·0.5, clamped,
then integer mutation. -/
def next_improve (fuel : Nat) (xb x xi : Nat → ℚ) : M St (Nat → ℚ) :=
  modify C fuel (getClosestFeasible C (fun i => xb i + (x i - xi i) * (1 / 2)))

/-- Rejection loop for r1 (r1 ≠ p, r1 ≠ bestI). -/
def pickR1 (p bI : Nat) : Nat → M St Nat
  | 0 => failM
  | fuel + 1 =>
    bindM (rndInt C C.popsize) (fun r1 =>
      if r1 = p ∨ r1 = bI then pickR1 p bI fuel else pureM r1)

/-- Rejection loop for r2 (distinct from p, bestI and r1). -/
def pickR2 (p bI r1 : Nat) : Nat → M St Nat
  | 0 => failM
  | fuel + 1 =>
    bindM (rndInt C C.popsize) (fun r2 =>
      if r2 = p ∨ r2 = bI ∨ r2 = r1 then pickR2 p bI r1 fuel else pureM r2)

/-- Crossover loop over the coordinates: at the pivot r, or with
probability CR, take the DE/best/1 mutant coordinate, repaired by normXi
when infeasible; otherwise keep the parent coordinate. -/
def trialLoop (xb x1 x2 : Nat → ℚ) (F CR : ℚ) (r fuel : Nat) :
    List Nat → (Nat → ℚ) → M St (Nat → ℚ)
  | [], x => pureM x
  | j :: js, x =>
    bindM (if j = r then pureM true
           else bindM (rnd01 C) (fun c => pureM (decide (c < CR))))
      (fun hit =>
        if hit then
          let v := xb j + F * (x1 j - x2 j)
          if feasible C j v then trialLoop xb x1 x2 F CR r fuel js (upd x j v)
          else
            bindM (normXi C fuel j) (fun nv =>
              trialLoop xb x1 x2 F CR r fuel js (upd x j nv))
        else trialLoop xb x1 x2 F CR r fuel js x)

/-- Body of the generation loop for slot p (ldeoptimizer.cpp 271-325).
Returns true when the stop-fitness test fired (the C++ return).  The
eval result is always finite after the 1E99 coercion, so the isfinite
guards of lines 295 and 299 hold. -/
def slotStep (F CR : ℚ) (fuel p : Nat) : M St Bool :=
  bindM getM (fun s0 =>
  let xp := s0.popX p
  let xb := s0.popX s0.bestI
  bindM (pickR1 C p s0.bestI fuel) (fun r1 =>
  bindM (pickR2 C p s0.bestI r1 fuel) (fun r2 =>
  let x1 := s0.popX r1
  let x2 := s0.popX r2
  bindM (rndInt C C.dim) (fun r =>
  bindM (trialLoop C xb x1 x2 F CR r fuel (List.range C.dim) xp) (fun xt =>
  bindM (modify C fuel xt) (fun x =>
  bindM (eval C x) (fun y =>
  bindM getM (fun s1 =>
  if y < s1.popY p then
    bindM (next_improve C fuel xb x xp) (fun xs2 =>
    bindM (eval C xs2) (fun y2 =>
    let xy := if y2 < y then (xs2, y2) else (x, y)
    bindM (setM (fun s => { s with
      popX := upd s.popX p xy.1
      popY := upd s.popY p xy.2
      popIter := upd s.popIter p s.iterations })) (fun _ =>
    bindM getM (fun s2 =>
    if xy.2 < s2.popY s2.bestI then
      bindM (setM (fun s => { s with bestI := p })) (fun _ =>
      if xy.2 < s2.bestY then
        bindM (updateSigma C xy.1) (fun _ =>
        bindM (setM (fun s => { s with bestY := xy.2, bestX := xy.1 })) (fun _ =>
        if C.stopfitness.isFiniteD && decide (xy.2 < coerceD C.stopfitness) then
          bindM (setM (fun s => { s with stop := 1 })) (fun _ => pureM true)
        else pureM false))
      else pureM false)
    else pureM false))))
  else
    bindM (rnd01 C) (fun c =>
    bindM getM (fun s2 =>
    if C.keep * c < ((s2.iterations : ℚ) - (s2.popIter p : ℚ)) then
      bindM (normX C) (fun nx =>
      bindM (setM (fun s => { s with
        popX := upd s.popX p nx
        popY := upd s.popY p DBL_MAX })) (fun _ => pureM false))
    else pureM false))))))))))

/-- Inner loop of one generation over the slots; true propagates the
stop-fitness return. -/
def genLoop (F CR : ℚ) (fuel : Nat) : List Nat → M St Bool
  | [] => pureM false
  | p :: ps =>
    bindM (slotStep C F CR fuel p) (fun st =>
      if st then pureM true else genLoop F CR fuel ps)

/-- Generation loop of doOptimize: while the evaluation counter is below
maxEvaluations run one generation; gens is loop fuel.  On even iteration
numbers CR and F are halved. -/
def genIter (fuel : Nat) : Nat → M St Unit
  | 0 => failM
  | gens + 1 =>
    bindM getM (fun s =>
      if s.evalCount < C.maxEvaluations then
        bindM (setM (fun t => { t with iterations := t.iterations + 1 })) (fun _ =>
        bindM (genLoop C
            (if (s.iterations + 1) % 2 = 0 then 1 / 2 * C.F0 else C.F0)
            (if (s.iterations + 1) % 2 = 0 then 1 / 2 * C.CR0 else C.CR0)
            fuel (List.range C.popsize)) (fun stopped =>
          if stopped then pureM () else genIter fuel gens))
      else pureM ())

/-- doOptimize (ldeoptimizer.cpp 262-327). -/
def doOptimize (fuel gens : Nat) : M St Unit := genIter C fuel gens

/-- Initial state: init() together with the Fitness constructor. -/
def initSt : St where
  idx := 0
  evalCount := 0
  funcCalls := 0
  evalLog := []
  xmean := C.guess
  sigma := C.sigma0
  popX := fun _ => C.guess
  popY := fun _ => DBL_MAX
  popIter := fun _ => 0
  bestI := 0
  bestY := DBL_MAX
  bestX := C.guess
  iterations := 0
  stop := 0

end LDE

theorem bindM_eq_some {σ α β : Type} {m : M σ α} {f : α → M σ β} {s : σ}
    {b : β} {s2 : σ} :
    bindM m f s = some (b, s2) ↔
      ∃ a s1, m s = some (a, s1) ∧ f a s1 = some (b, s2) := by
  unfold bindM
  cases h : m s with
  | none => simp
  | some v =>
    cases v with
    | mk a s1 =>
      constructor
      · intro hf
        exact ⟨a, s1, rfl, hf⟩
      · rintro ⟨a2, s3, he, hf⟩
        cases he
        exact hf

theorem bindM_getM_run {σ β : Type} (f : σ → M σ β) (s : σ) :
    bindM getM f s = f s s := rfl

theorem bindM_setM_run {σ β : Type} (g : σ → σ) (f : Unit → M σ β) (s : σ) :
    bindM (setM g) f s = f () (g s) := rfl

theorem bindM_pureM_run {σ α β : Type} (a : α) (f : α → M σ β) (s : σ) :
    bindM (pureM a) f s = f a s := rfl

/-- A successful monadic step rewritten into its continuation:
the workhorse for tracing a concrete run step by step. -/
theorem bindM_eq_step {σ α β : Type} (m : M σ α) (f : α → M σ β) (s : σ)
    (a : α) (t : σ) (h : m s = some (a, t)) : bindM m f s = f a t := by
  unfold bindM
  rw [h]

/-- Decomposition of a succeeding optional pair from its first
projection: the second component is recovered as a getD. -/
theorem opt_decomp {α β : Type} (m : Option (α × β)) (b : α) (d : β)
    (h1 : m.map Prod.fst = some b) : m = some (b, (m.map Prod.snd).getD d) := by
  cases m with
  | none => exact Option.noConfusion h1
  | some p =>
    have hb : p.1 = b := Option.some.inj h1
    rw [← hb]
    rfl

theorem evBnd_pureM {σ α : Type} (cnt : σ → Nat) (a : α) :
    EvBnd cnt (pureM a) 0 := by
  intro s b s' h
  simp only [pureM, Option.some.injEq, Prod.mk.injEq] at h
  rw [← h.2]
  omega

theorem evBnd_failM {σ α : Type} (cnt : σ → Nat) (k : Nat) :
    EvBnd cnt (failM (α := α)) k := by
  intro s b s' h
  simp [failM] at h

theorem evBnd_getM {σ : Type} (cnt : σ → Nat) : EvBnd cnt getM 0 := by
  intro s b s' h
  simp only [getM, Option.some.injEq, Prod.mk.injEq] at h
  rw [← h.2]
  omega

theorem evBnd_setM {σ : Type} (cnt : σ → Nat) (f : σ → σ)
    (hf : ∀ s, cnt (f s) = cnt s) : EvBnd cnt (setM f) 0 := by
  intro s b s' h
  simp only [setM, Option.some.injEq, Prod.mk.injEq] at h
  rw [← h.2, hf]
  omega

theorem evBnd_bindM {σ α β : Type} {cnt : σ → Nat} (j k : Nat) {m : M σ α}
    {f : α → M σ β} (hm : EvBnd cnt m j)
    (hf : ∀ a, EvBnd cnt (f a) k) : EvBnd cnt (bindM m f) (j + k) := by
  intro s b s' h
  rcases bindM_eq_some.mp h with ⟨a, s1, h1, h2⟩
  have i1 := hm s a s1 h1
  have i2 := hf a s1 b s' h2
  omega

theorem evBnd_mono {σ α : Type} {cnt : σ → Nat} {m : M σ α} {j k : Nat}
    (hm : EvBnd cnt m j) (hjk : j ≤ k) : EvBnd cnt m k := by
  intro s b s' h
  have := hm s b s' h
  omega

theorem evBnd_ite {σ α : Type} (cnt : σ → Nat) {c : Prop} [Decidable c]
    {m1 m2 : M σ α} {k : Nat} (h1 : EvBnd cnt m1 k) (h2 : EvBnd cnt m2 k) :
    EvBnd cnt (if c then m1 else m2) k := by
  by_cases hc : c
  · simpa [hc] using h1
  · simpa [hc] using h2

namespace LDE

variable (C : Ctx)


theorem evBnd_nextR : EvBnd St.evalCount (nextR C) 0 := by
  intro s b s' h
  simp only [nextR, Option.some.injEq, Prod.mk.injEq] at h
  rw [← h.2]
  exact le_of_eq rfl

theorem evBnd_rnd01 : EvBnd St.evalCount (rnd01 C) 0 := evBnd_nextR C

theorem evBnd_rndInt (mx : Nat) : EvBnd St.evalCount (rndInt C mx) 0 :=
  evBnd_bindM 0 0 (evBnd_rnd01 C) (fun _ => evBnd_pureM _ _)

theorem evBnd_normreal (mean sdev : ℚ) :
    EvBnd St.evalCount (normreal C mean sdev) 0 :=
  evBnd_bindM 0 0 (evBnd_nextR C) (fun _ => evBnd_pureM _ _)

theorem evBnd_normXiLoop (b : Bool) (i : Nat) :
    ∀ fuel, EvBnd St.evalCount (normXiLoop C b i fuel) 0
  | 0 => evBnd_failM _ _
  | fuel + 1 => by
    rw [normXiLoop]
    refine evBnd_bindM 0 0 (evBnd_getM _) (fun s => ?_)
    refine evBnd_bindM 0 0 (evBnd_normreal C _ _) (fun nx => ?_)
    exact evBnd_ite _ (evBnd_pureM _ _) (evBnd_normXiLoop b i fuel)

theorem evBnd_normXi (fuel i : Nat) : EvBnd St.evalCount (normXi C fuel i) 0 :=
  evBnd_bindM 0 0 (evBnd_rnd01 C)
    (fun _ => evBnd_ite _ (evBnd_normXiLoop C true i fuel)
      (evBnd_normXiLoop C false i fuel))

theorem evBnd_drawN : ∀ n, EvBnd St.evalCount (drawN C n) 0
  | 0 => evBnd_pureM _ _
  | n + 1 => by
    rw [drawN]
    refine evBnd_bindM 0 0 (evBnd_nextR C) (fun g => ?_)
    exact evBnd_bindM 0 0 (evBnd_drawN n) (fun gs => evBnd_pureM _ _)

theorem evBnd_normalVec (mean sdev : Nat → ℚ) :
    EvBnd St.evalCount (normalVec C mean sdev) 0 :=
  evBnd_bindM 0 0 (evBnd_drawN C _) (fun _ => evBnd_pureM _ _)

theorem evBnd_normX : EvBnd St.evalCount (normX C) 0 :=
  evBnd_bindM 0 0 (evBnd_rnd01 C) (fun r =>
    evBnd_bindM 0 0 (evBnd_getM _) (fun s =>
      evBnd_ite _
        (evBnd_bindM 0 0 (evBnd_normalVec C _ _) (fun _ => evBnd_pureM _ _))
        (evBnd_bindM 0 0 (evBnd_normalVec C _ _) (fun _ => evBnd_pureM _ _))))

theorem eval_evalCount (X : Nat → ℚ) :
    ∀ s y s', eval C X s = some (y, s') → s'.evalCount = s.evalCount + 1 := by
  intro s y s' h
  simp only [eval, Option.some.injEq, Prod.mk.injEq] at h
  rw [← h.2]

theorem evBnd_eval (X : Nat → ℚ) : EvBnd St.evalCount (eval C X) 1 := by
  intro s y s' h
  rw [eval_evalCount C X s y s' h]

theorem evBnd_updateSigma (X : Nat → ℚ) :
    EvBnd St.evalCount (updateSigma C X) 0 :=
  evBnd_setM _ _ (fun _ => rfl)

theorem evBnd_mutLoop (ints : Nat → Bool) (nInts toMut : ℚ) (fuel : Nat) :
    ∀ l x, EvBnd St.evalCount (mutLoop C ints nInts toMut fuel l x) 0
  | [], x => evBnd_pureM _ _
  | i :: is, x => by
    rw [mutLoop]
    refine evBnd_ite _ ?_ (evBnd_mutLoop ints nInts toMut fuel is x)
    refine evBnd_bindM 0 0 (evBnd_rnd01 C) (fun c => ?_)
    refine evBnd_ite _ ?_ (evBnd_mutLoop ints nInts toMut fuel is x)
    exact evBnd_bindM 0 0 (evBnd_normXi C fuel i)
      (fun v => evBnd_mutLoop ints nInts toMut fuel is _)

theorem evBnd_modify (fuel : Nat) (x : Nat → ℚ) :
    EvBnd St.evalCount (modify C fuel x) 0 := by
  unfold modify
  cases C.isInt with
  | none => exact evBnd_pureM _ _
  | some ints =>
    exact evBnd_bindM 0 0 (evBnd_rnd01 C)
      (fun r => evBnd_mutLoop C ints _ _ fuel _ x)

theorem evBnd_next_improve (fuel : Nat) (xb x xi : Nat → ℚ) :
    EvBnd St.evalCount (next_improve C fuel xb x xi) 0 :=
  evBnd_modify C fuel _

theorem evBnd_pickR1 (p bI : Nat) :
    ∀ fuel, EvBnd St.evalCount (pickR1 C p bI fuel) 0
  | 0 => evBnd_failM _ _
  | fuel + 1 => by
    rw [pickR1]
    refine evBnd_bindM 0 0 (evBnd_rndInt C _) (fun r1 => ?_)
    exact evBnd_ite _ (evBnd_pickR1 p bI fuel) (evBnd_pureM _ _)

theorem evBnd_pickR2 (p bI r1 : Nat) :
    ∀ fuel, EvBnd St.evalCount (pickR2 C p bI r1 fuel) 0
  | 0 => evBnd_failM _ _
  | fuel + 1 => by
    rw [pickR2]
    refine evBnd_bindM 0 0 (evBnd_rndInt C _) (fun r2 => ?_)
    exact evBnd_ite _ (evBnd_pickR2 p bI r1 fuel) (evBnd_pureM _ _)

theorem evBnd_trialLoop (xb x1 x2 : Nat → ℚ) (F CR : ℚ) (r fuel : Nat) :
    ∀ l x, EvBnd St.evalCount (trialLoop C xb x1 x2 F CR r fuel l x) 0
  | [], x => evBnd_pureM _ _
  | j :: js, x => by
    rw [trialLoop]
    refine evBnd_bindM 0 0
      (evBnd_ite _ (evBnd_pureM _ _)
        (evBnd_bindM 0 0 (evBnd_rnd01 C) (fun c => evBnd_pureM _ _)))
      (fun hit => ?_)
    refine evBnd_ite _ ?_ (evBnd_trialLoop xb x1 x2 F CR r fuel js x)
    refine evBnd_ite _ (evBnd_trialLoop xb x1 x2 F CR r fuel js _) ?_
    exact evBnd_bindM 0 0 (evBnd_normXi C fuel j)
      (fun nv => evBnd_trialLoop xb x1 x2 F CR r fuel js _)

theorem evBnd_slotStep (F CR : ℚ) (fuel p : Nat) :
    EvBnd St.evalCount (slotStep C F CR fuel p) 2 := by
  unfold slotStep
  refine evBnd_bindM 0 2 (evBnd_getM _) (fun s0 => ?_)
  refine evBnd_bindM 0 2 (evBnd_pickR1 C _ _ fuel) (fun r1 => ?_)
  refine evBnd_bindM 0 2 (evBnd_pickR2 C _ _ _ fuel) (fun r2 => ?_)
  refine evBnd_bindM 0 2 (evBnd_rndInt C _) (fun r => ?_)
  refine evBnd_bindM 0 2 (evBnd_trialLoop C _ _ _ _ _ _ fuel _ _) (fun xt => ?_)
  refine evBnd_bindM 0 2 (evBnd_modify C fuel xt) (fun x => ?_)
  refine evBnd_bindM 1 1 (evBnd_eval C x) (fun y => ?_)
  refine evBnd_bindM 0 1 (evBnd_getM _) (fun s1 => ?_)
  refine evBnd_ite _ ?_ ?_
  · refine evBnd_bindM 0 1 (evBnd_next_improve C fuel _ _ _) (fun xs2 => ?_)
    refine evBnd_bindM 1 0 (evBnd_eval C xs2) (fun y2 => ?_)
    refine evBnd_bindM 0 0 (evBnd_setM _ _ (fun _ => rfl)) (fun _ => ?_)
    refine evBnd_bindM 0 0 (evBnd_getM _) (fun s2 => ?_)
    refine evBnd_ite _ ?_ (evBnd_pureM _ _)
    refine evBnd_bindM 0 0 (evBnd_setM _ _ (fun _ => rfl)) (fun _ => ?_)
    refine evBnd_ite _ ?_ (evBnd_pureM _ _)
    refine evBnd_bindM 0 0 (evBnd_updateSigma C _) (fun _ => ?_)
    refine evBnd_bindM 0 0 (evBnd_setM _ _ (fun _ => rfl)) (fun _ => ?_)
    refine evBnd_ite _ ?_ (evBnd_pureM _ _)
    exact evBnd_bindM 0 0 (evBnd_setM _ _ (fun _ => rfl))
      (fun _ => evBnd_pureM _ _)
  · refine evBnd_mono ?_ (by omega : 0 ≤ 1)
    refine evBnd_bindM 0 0 (evBnd_rnd01 C) (fun c => ?_)
    refine evBnd_bindM 0 0 (evBnd_getM _) (fun s2 => ?_)
    refine evBnd_ite _ ?_ (evBnd_pureM _ _)
    refine evBnd_bindM 0 0 (evBnd_normX C) (fun nx => ?_)
    exact evBnd_bindM 0 0 (evBnd_setM _ _ (fun _ => rfl))
      (fun _ => evBnd_pureM _ _)

theorem evBnd_genLoop (F CR : ℚ) (fuel : Nat) :
    ∀ l, EvBnd St.evalCount (genLoop C F CR fuel l) (2 * l.length)
  | [] => evBnd_pureM _ _
  | p :: ps => by
    rw [genLoop]
    have h : EvBnd St.evalCount
        (bindM (slotStep C F CR fuel p)
          (fun st => if st then pureM true else genLoop C F CR fuel ps))
        (2 + 2 * ps.length) :=
      evBnd_bindM 2 (2 * ps.length) (evBnd_slotStep C F CR fuel p)
        (fun st => evBnd_ite _
          (evBnd_mono (evBnd_pureM _ _) (by omega))
          (evBnd_genLoop F CR fuel ps))
    refine evBnd_mono h (by simp [List.length_cons]; omega)

theorem genIter_evalBound (fuel : Nat) :
    ∀ gens s a s', genIter C fuel gens s = some (a, s') →
      s'.evalCount ≤ max s.evalCount (C.maxEvaluations - 1 + 2 * C.popsize)
  | 0 => by
    intro s a s' h
    simp [genIter, failM] at h
  | gens + 1 => by
    intro s a s' h
    rw [genIter] at h
    rcases bindM_eq_some.mp h with ⟨s0, s1, h0, h1⟩
    simp only [getM, Option.some.injEq, Prod.mk.injEq] at h0
    rcases h0 with ⟨e0a, e0b⟩
    rw [← e0a, ← e0b] at h1
    clear h e0a e0b
    split at h1
    case isTrue hlt =>
      rcases bindM_eq_some.mp h1 with ⟨u, s2, hset, h2⟩
      have hc2 : s2.evalCount = s.evalCount := by
        simp only [setM, Option.some.injEq, Prod.mk.injEq] at hset
        rw [← hset.2]
      rcases bindM_eq_some.mp h2 with ⟨stopped, s3, hloop, h3⟩
      have hc3 : s3.evalCount ≤ s2.evalCount + 2 * (List.range C.popsize).length :=
        evBnd_genLoop C _ _ fuel (List.range C.popsize) s2 stopped s3 hloop
      rw [List.length_range] at hc3
      have hc3' : s3.evalCount ≤ C.maxEvaluations - 1 + 2 * C.popsize := by
        omega
      split at h3
      case isTrue =>
        have e3 : s' = s3 := by
          simp only [pureM, Option.some.injEq, Prod.mk.injEq] at h3
          rw [← h3.2]
        rw [e3]
        exact le_max_of_le_right hc3'
      case isFalse =>
        have hr := genIter_evalBound fuel gens s3 a s' h3
        have hmax : max s3.evalCount (C.maxEvaluations - 1 + 2 * C.popsize) ≤
            C.maxEvaluations - 1 + 2 * C.popsize := by
          omega
        exact le_max_of_le_right (le_trans hr hmax)
    case isFalse =>
      have e1 : s' = s := by
        simp only [pureM, Option.some.injEq, Prod.mk.injEq] at h1
        rw [← h1.2]
      rw [e1]
      exact le_max_left _ _

/-- Claim-side reading of the C8 sentence for the vector sampler: the
spec says normX also enforces per-coordinate bound feasibility by
rejection, i.e. it resamples each coordinate until it is feasible.  This
definition follows the claim words, to be compared with normX as
translated from the source. -/
def normXspecCoords (useSigma0 : Bool) (fuel : Nat) :
    List Nat → (Nat → ℚ) → M St (Nat → ℚ)
  | [], acc => pureM acc
  | i :: is, acc =>
    bindM (normXiLoop C useSigma0 i fuel) (fun v =>
      normXspecCoords useSigma0 fuel is (upd acc i v))

/-- Claim-side normX per C8: select sigma0 with probability 0.5, else
sigma, then rejection-sample every coordinate until feasible. -/
def normXspec (fuel : Nat) : M St (Nat → ℚ) :=
  bindM (rnd01 C) (fun r =>
    if r < 1 / 2 then normXspecCoords C true fuel (List.range C.dim) (fun _ => 0)
    else normXspecCoords C false fuel (List.range C.dim) (fun _ => 0))

theorem normXiLoop_feasible (b : Bool) (i : Nat) :
    ∀ fuel s v s', normXiLoop C b i fuel s = some (v, s') →
      feasible C i v = true
  | 0 => by
    intro s v s' h
    simp [normXiLoop, failM] at h
  | fuel + 1 => by
    intro s v s' h
    rw [normXiLoop] at h
    rcases bindM_eq_some.mp h with ⟨s0, s1, h0, h1⟩
    rcases bindM_eq_some.mp h1 with ⟨nx, s2, h2, h3⟩
    split at h3
    case isTrue hf =>
      simp only [pureM, Option.some.injEq, Prod.mk.injEq] at h3
      rw [← h3.1]
      exact hf
    case isFalse =>
      exact normXiLoop_feasible b i fuel s2 v s' h3

theorem normXi_feasible (fuel i : Nat) :
    ∀ s v s', normXi C fuel i s = some (v, s') → feasible C i v = true := by
  intro s v s' h
  rw [normXi] at h
  rcases bindM_eq_some.mp h with ⟨r, s1, h1, h2⟩
  split at h2
  · exact normXiLoop_feasible C true i fuel s1 v s' h2
  · exact normXiLoop_feasible C false i fuel s1 v s' h2

theorem getClosestFeasible_mem (lo hi : Nat → ℚ) (hb : C.bounds = some (lo, hi))
    (hlohi : ∀ i, lo i ≤ hi i) (X : Nat → ℚ) (i : Nat) :
    lo i ≤ getClosestFeasible C X i ∧ getClosestFeasible C X i ≤ hi i := by
  unfold getClosestFeasible
  rw [hb]
  constructor
  · exact le_max_left _ _
  · exact max_le (hlohi i) (le_trans (min_le_right _ _) (le_refl _))

theorem normX_result_feasible (lo hi : Nat → ℚ) (hb : C.bounds = some (lo, hi))
    (hlohi : ∀ i, lo i ≤ hi i) :
    ∀ s v s', normX C s = some (v, s') → ∀ i, lo i ≤ v i ∧ v i ≤ hi i := by
  intro s v s' h i
  rw [normX] at h
  rcases bindM_eq_some.mp h with ⟨r, s1, h1, h2⟩
  rcases bindM_eq_some.mp h2 with ⟨t, s2, h3, h4⟩
  split at h4
  all_goals
    rcases bindM_eq_some.mp h4 with ⟨w, s3, h5, h6⟩
    simp only [pureM, Option.some.injEq, Prod.mk.injEq] at h6
    rw [← h6.1]
    exact getClosestFeasible_mem C lo hi hb hlohi w i

end LDE

/-- Oracle stream of the concrete LDE run used as a counterexample:
slot 0 draws r1, r2, the crossover pivot, an integer-mutation pair and
the reinitialization coin; slot 1 draws r1, r2, the pivot, a mutation
pair that triggers the normXi resample (choice coin and normal draw 5/2),
and the mutation pair of the temporal-locality probe. -/
def ldeCexOracle : List ℚ :=
  [3/10, 6/10, 0, 0, 9/10, 9/10,
   6/10, 8/10, 0, 0, 0, 0, 5/2, 0, 9/10]

/-- Concrete LDE context: dim 1, unbounded, objective DBL_MAX at the
initial guess 1/2 and 4 elsewhere, one integer-flagged coordinate,
stop-fitness 100, maxEvaluations 1: the run stops inside the first
generation after 3 evaluations. -/
def ldeCexCtx : LDE.Ctx where
  dim := 1
  func := fun xs => if xs.getD 0 0 = 1/2 then D.fin DBL_MAX else D.fin 4
  bounds := none
  R := fun n => ldeCexOracle.getD n 0
  popsize := 4
  maxEvaluations := 1
  keep := 30
  stopfitness := D.fin 100
  F0 := 1/2
  CR0 := 9/10
  min_mutate := 1/10
  max_mutate := 1/2
  isInt := some (fun _ => true)
  sigma0 := fun _ => 1
  maxSigma := fun _ => 1/4
  guess := fun _ => 1/2

/-- Concrete LDE context for the normX sampling claim: dim 1, bounds
[0, 1], xmean 0; the oracle makes the first normal draw fall outside the
box. -/
def ldeNormXCtx : LDE.Ctx where
  dim := 1
  func := fun _ => D.fin 5
  bounds := some (fun _ => 0, fun _ => 1)
  R := fun n => if n = 0 then 0 else if n = 1 then 5 else 1/4
  popsize := 4
  maxEvaluations := 1
  keep := 30
  stopfitness := D.pinf
  F0 := 1/2
  CR0 := 9/10
  isInt := none
  min_mutate := 1/10
  max_mutate := 1/2
  sigma0 := fun _ => 1
  maxSigma := fun _ => 1/4
  guess := fun _ => 0

namespace MODE

/-- Matrix as a total function (row, column) → value. -/
def Mat : Type := Nat → Nat → ℚ

/-- Column p of a matrix, as a vector. -/
def colOf (A : Mat) (p : Nat) : Nat → ℚ := fun r => A r p

/-- Overwrite column p of a matrix. -/
def updCol (A : Mat) (p : Nat) (v : Nat → ℚ) : Mat :=
  fun r c => if c = p then v r else A r c

/-- Single-entry update of a matrix. -/
def updM (A : Mat) (r c : Nat) (v : ℚ) : Mat :=
  fun r' c' => if r' = r ∧ c' = c then v else A r' c'

/-- Modelled from the spec: sort_index comes from evaluator.h, which is
not under src; the spec only says to sort ascending by value, so it is
modelled as a stable ascending index sort over 0..n-1. -/
def sort_index (n : Nat) (f : Nat → ℚ) : List Nat :=
  List.insertionSort (fun i j => f i ≤ f j) (List.range n)

/-- Eigen maxCoeff over the entries of a nonempty list (0 on empty input,
which the callers never pass). -/
def maxCoeffL : List ℚ → ℚ
  | [] => 0
  | x :: xs => xs.foldl max x

/-- Position-indexed scatter assignment f(l[k]) := vals k, the embedding
of an Eigen indexed write target(indexvec) = values. -/
def scatterGo (vals : Nat → ℚ) : Nat → List Nat → (Nat → ℚ) → (Nat → ℚ)
  | _, [], f => f
  | k, c :: rest, f => scatterGo vals (k + 1) rest (upd f c (vals k))

def scatter (si : List Nat) (vals : Nat → ℚ) : Nat → ℚ :=
  scatterGo vals 0 si (fun _ => 0)

/-- Position-indexed scatter addition f(l[k]) += vals k. -/
def addListGo (vals : Nat → ℚ) : Nat → List Nat → (Nat → ℚ) → (Nat → ℚ)
  | _, [], f => f
  | k, c :: rest, f =>
    addListGo vals (k + 1) rest (fun j => if j = c then f j + vals k else f j)

def addList (f : Nat → ℚ) (l : List Nat) (vals : Nat → ℚ) : Nat → ℚ :=
  addListGo vals 0 l f

/-- Static data of one MoDeOptimizer run; engine parameters carry their
constructor-defaulted values, nsga_update0 and pareto_update0 are the
initial values of the two switchable fields, powQ is an oracle standing
for the floating-point pow, sched is the completion-order oracle of the
parallel evaluator, R the random stream as in the LDE embedding. -/
structure Ctx where
  dim : Nat
  nobj : Nat
  ncon : Nat
  func : List ℚ → List D
  logCb : Nat → Mat → Mat → Bool
  lower : Nat → ℚ
  upper : Nat → ℚ
  R : Nat → ℚ
  powQ : ℚ → ℚ → ℚ
  sched : Nat → Nat
  popsize : Nat
  maxEvaluations : Nat
  F0 : ℚ
  CR0 : ℚ
  pro_c : ℚ
  dis_c : ℚ
  pro_m : ℚ
  dis_m : ℚ
  min_mutate : ℚ
  max_mutate : ℚ
  log_period : Nat
  isInt : Option (Nat → Bool)
  nsga_update0 : Bool
  pareto_update0 : ℚ

/-- Mutable state of the Fitness wrapper (evaluation counter, terminate
flag) and the MoDeOptimizer. -/
structure St where
  idx : Nat
  schedIdx : Nat
  evalCount : Nat
  terminateF : Bool
  iterations : Nat
  n_evals : Nat
  pos : Nat
  vp : Nat
  stop : Nat
  F : ℚ
  CR : ℚ
  nsga_update : Bool
  pareto_update : ℚ
  popX : Mat
  popY : Mat
  nX : Mat
  nY : Mat
  vX : Mat
  vdone : Nat → Bool

variable (C : Ctx)

/-- Draw the next variate from the random stream. -/
def nextR : M St ℚ := fun s => some (C.R s.idx, { s with idx := s.idx + 1 })

/-- Modelled from the spec: rand01 of evaluator.h, a uniform draw. -/
def rand01 : M St ℚ := nextR C

/-- Modelled from the spec: randInt of evaluator.h, a uniform integer
draw below mx. -/
def randInt (mx : Nat) : M St Nat :=
  bindM (rand01 C) (fun r => pureM (cTrunc ((mx : ℚ) * r)).toNat)

/-- Sequence of n uniform draws (uniformVec). -/
def drawN : Nat → M St (List ℚ)
  | 0 => pureM []
  | n + 1 =>
    bindM (nextR C) (fun g => bindM (drawN n) (fun gs => pureM (g :: gs)))

/-- Modelled from the spec: scale() of the Fitness wrapper,
upper − lower. -/
def scaleF : Nat → ℚ := fun i => C.upper i - C.lower i

/-- Modelled from the spec: norm_i of the Fitness wrapper, the coordinate
normalized over the bounds. -/
def norm_i (i : Nat) (x : ℚ) : ℚ := (x - C.lower i) / scaleF C i

/-- getClosestFeasible of the Fitness wrapper: clamp into the box
(modelled from the spec; evaluator.h is not under src). -/
def getClosestFeasible (v : Nat → ℚ) : Nat → ℚ :=
  fun i => max (C.lower i) (min (v i) (C.upper i))

/-- Modelled from the spec: sample() of the Fitness wrapper, uniform in
the box. -/
def sample : M St (Nat → ℚ) :=
  bindM (drawN C C.dim) (fun us =>
    pureM (fun i => C.lower i + scaleF C i * us.getD i 0))

/-- Modelled from the spec: sample_i of the Fitness wrapper. -/
def sample_i (i : Nat) : M St ℚ :=
  bindM (rand01 C) (fun u => pureM (C.lower i + scaleF C i * u))

/-- Modelled from the spec: Fitness eval replaces every non-finite result
component with 1e99 and increments the evaluation counter; func yields
the nobj+ncon components. -/
def evalF (x : Nat → ℚ) : M St (Nat → ℚ) := fun s =>
  let ys := (C.func ((List.range C.dim).map x)).map coerceD
  some (fun j => ys.getD j 0, { s with evalCount := s.evalCount + 1 })

/-- Worker-side objective evaluation of the parallel evaluator: the same
coercion, counted only on completion (result or drain). -/
def evalPure (x : Nat → ℚ) : Nat → ℚ :=
  fun j => ((C.func ((List.range C.dim).map x)).map coerceD).getD j 0

/-- Per-coordinate loop of modify (modeoptimizer.cpp 232-237): an integer
coordinate is resampled with probability to_mutate / n_ints via sample_i
and truncated with the C (int) cast. -/
def mutLoop (ints : Nat → Bool) (nInts toMut : ℚ) :
    List Nat → (Nat → ℚ) → M St (Nat → ℚ)
  | [], x => pureM x
  | i :: is, x =>
    if ints i then
      bindM (rand01 C) (fun c =>
        if c < toMut / nInts then
          bindM (sample_i C i) (fun v =>
            mutLoop ints nInts toMut is (upd x i ((cTrunc v : ℤ) : ℚ)))
        else mutLoop ints nInts toMut is x)
    else mutLoop ints nInts toMut is x

/-- modify (modeoptimizer.cpp 224-238). -/
def modify (x : Nat → ℚ) : M St (Nat → ℚ) :=
  match C.isInt with
  | none => pureM x
  | some ints =>
    let nInts : ℚ := (((List.range C.dim).filter (fun i => ints i)).length : ℚ)
    bindM (rand01 C) (fun r =>
      mutLoop C ints nInts (C.min_mutate + r * (C.max_mutate - C.min_mutate))
        (List.range C.dim) x)

/-- crowd_dist (modeoptimizer.cpp 240-262) over the first n columns of y:
sort by row 0, neighbour gaps, borders kept with DBL_MAX, scattered back
through the sort permutation; all zeros when every gap is zero. -/
def crowd_dist (y : Mat) (n : Nat) : Nat → ℚ :=
  let y0 : Nat → ℚ := fun c => y 0 c
  let si := sort_index n y0
  let y0s : Nat → ℚ := fun k => y0 (si.getD k 0)
  let d : List ℚ := (List.range (n - 1)).map (fun k => y0s (k + 1) - y0s k)
  if maxCoeffL d = 0 then (fun _ => 0)
  else
    let dsum0 : Nat → ℚ := fun k =>
      (if 0 < k then d.getD (k - 1) 0 else 0) +
        (if k < n - 1 then d.getD k 0 else 0)
    scatter si (upd (upd dsum0 0 DBL_MAX) (n - 1) DBL_MAX)

/-- is_dominated for a new result vector against population column p
(modeoptimizer.cpp 264-269): no component strictly smaller. -/
def is_dominated_vec (y : Nat → ℚ) (rows : Nat) (Y : Mat) (p : Nat) : Bool :=
  (List.range rows).all (fun j => ! decide (y j < Y j p))

/-- is_dominated between two columns of a matrix (modeoptimizer.cpp
271-276): no row of column i strictly smaller than column index. -/
def is_dominated_mat (y : Mat) (rows i index : Nat) : Bool :=
  (List.range rows).all (fun j => ! decide (y j i < y j index))

/-- Advance of the anchor index in pareto_levels: the source loop
(while (!mask[index] && index < n) index++) reads mask[n] out of bounds
at the last step, but its exit point coincides with the bounds-checked
form for every mask value, which is what is embedded. -/
def skipIdx (mask : Nat → Bool) (n : Nat) : Nat → Nat → Nat
  | 0, i => i
  | f + 1, i => if i < n ∧ ¬ mask i then skipIdx mask n f (i + 1) else i

/-- Outer loop of pareto_levels (modeoptimizer.cpp 287-299); one pass
removes the columns dominated by the anchor, adds 1 to every survivor,
and advances the anchor to the next survivor; n+1 passes always
suffice. -/
def plLoop (y : Mat) (rows n : Nat) :
    Nat → (Nat → Bool) → (Nat → ℚ) → Nat → (Nat → ℚ)
  | 0, _, dom, _ => dom
  | fuel + 1, mask, dom, index =>
    if index < n then
      let mask1 : Nat → Bool := fun i =>
        if i ≠ index ∧ mask i ∧ is_dominated_mat y rows i index then false
        else mask i
      let dom1 : Nat → ℚ := fun i =>
        if i < n ∧ mask1 i then dom i + 1 else dom i
      plLoop y rows n fuel mask1 dom1 (skipIdx mask1 n (n + 1) (index + 1))
    else dom

/-- pareto_levels (modeoptimizer.cpp 278-301). -/
def pareto_levels (y : Mat) (rows n : Nat) : Nat → ℚ :=
  plLoop y rows n (n + 1) (fun _ => true) (fun _ => 0) 0

/-- Per-row objective rank: the scatter rank(ci(i)) = i of objranks. -/
def objrankRow (f : Nat → ℚ) (cols : Nat) : Nat → ℚ :=
  scatter (sort_index cols f) (fun k => (k : ℚ))

/-- objranks (modeoptimizer.cpp 303-313): per-row ascending rank, summed
per column. -/
def objranks (objs : Mat) (rows cols : Nat) : Nat → ℚ :=
  fun c => ((List.range rows).map (fun j => objrankRow (fun i => objs j i) cols c)).sum

/-- Per-row constraint rank of ranks: feasible entries of the row get 0,
infeasible ones their sort position. -/
def crankRow (f : Nat → ℚ) (cols : Nat) : Nat → ℚ :=
  scatter (sort_index cols f)
    (fun k => if f ((sort_index cols f).getD k 0) ≤ 0 then 0 else (k : ℚ))

/-- ranks (modeoptimizer.cpp 315-337): per-constraint rank scaled by
alpha(i)/ncon where alpha(i) counts the constraints individual i
violates, summed per column. -/
def ranks (cons : Mat) (rows cols : Nat) : Nat → ℚ :=
  fun c =>
    ((List.range rows).map (fun j =>
      crankRow (fun i => cons j i) cols c *
        ((((List.range rows).filter (fun j2 => decide (0 < cons j2 c))).length : ℚ) /
          (rows : ℚ)))).sum

/-- Constraint rows of the combined objective matrix
(ys(lastN(ncon), all)). -/
def yconOf (ys : Mat) : Mat := fun r c => ys (C.nobj + r) c

/-- Feasibility of column i: every constraint value at most 0
(ycon.col(i).maxCoeff() <= 0). -/
def feasibleB (ys : Mat) (i : Nat) : Bool :=
  (List.range C.ncon).all (fun j => decide (yconOf C ys j i ≤ 0))

/-- Whether any column is feasible. -/
def hasFeasible (ys : Mat) (n : Nat) : Bool :=
  (List.range n).any (feasibleB C ys)

/-- csum of pareto: the constraint rank sum, plus the objective rank sum
when any column is feasible. -/
def csumOf (ys : Mat) (n : Nat) : Nat → ℚ :=
  if hasFeasible C ys n then
    fun c => ranks (yconOf C ys) C.ncon n c + objranks ys C.nobj n c
  else ranks (yconOf C ys) C.ncon n

/-- Indices of the feasible columns in increasing order. -/
def cyOf (ys : Mat) (n : Nat) : List Nat :=
  (List.range n).filter (fun i => feasibleB C ys i)

/-- domination after the feasible pareto-front addition
(domination(cy) += ypar). -/
def dom1Of (ys : Mat) (n : Nat) : Nat → ℚ :=
  if hasFeasible C ys n then
    addList (fun _ => 0) (cyOf C ys n)
      (fun k => pareto_levels
        (fun r j => ys r ((cyOf C ys n).getD j 0)) C.nobj (cyOf C ys n).length k)
  else (fun _ => 0)

/-- Infeasible columns in ascending csum order. -/
def civOf (ys : Mat) (n : Nat) : List Nat :=
  (sort_index n (csumOf C ys n)).filter (fun i => ! feasibleB C ys i)

/-- pareto (modeoptimizer.cpp 339-385): enhanced constraint ranking; with
no constraints plain pareto_levels, else the combination of the feasible
pareto front, the descending scores maxcdom − i of the infeasible columns
in csum order, and the flat feasibility bonus maxcdom + 1. -/
def pareto (ys : Mat) (n : Nat) : Nat → ℚ :=
  if C.ncon = 0 then pareto_levels ys C.nobj n
  else
    if 0 < (civOf C ys n).length then
      if 0 < (cyOf C ys n).length then
        addList
          (addList (dom1Of C ys n) (civOf C ys n)
            (fun k => ((civOf C ys n).length : ℚ) - (k : ℚ)))
          (cyOf C ys n) (fun _ => ((civOf C ys n).length : ℚ) + 1)
      else
        addList (dom1Of C ys n) (civOf C ys n)
          (fun k => ((civOf C ys n).length : ℚ) - (k : ℚ))
    else dom1Of C ys n

end MODE

namespace MODE

variable (C : Ctx)

/-- Row-major enumeration of the (column, coordinate) pairs of the two
nested loops of variation (p outer, i inner). -/
def pairList (a b : Nat) : List (Nat × Nat) :=
  (List.range a).foldr (fun p acc => ((List.range b).map (fun i => (p, i))) ++ acc) []

/-- SBX spread-factor loop of variation (modeoptimizer.cpp 136-150). -/
def betaLoop (dis_c_ : ℚ) (to1 : Nat → ℚ) :
    List (Nat × Nat) → Mat → M St Mat
  | [], beta => pureM beta
  | pi :: rest, beta =>
    bindM (rand01 C) (fun u1 =>
      if 1 / 2 < u1 ∨ (C.pro_c < 1 ∧ to1 pi.2 < C.pro_c) then
        betaLoop dis_c_ to1 rest (updM beta pi.2 pi.1 1)
      else
        bindM (rand01 C) (fun r =>
          bindM (rand01 C) (fun u2 =>
            betaLoop dis_c_ to1 rest (updM beta pi.2 pi.1
              (if 1 / 2 < u2 then
                -(if r ≤ 1 / 2 then C.powQ (2 * r) (1 / (dis_c_ + 1))
                  else C.powQ (2 * r) (-(1 / (dis_c_ + 1))))
               else
                (if r ≤ 1 / 2 then C.powQ (2 * r) (1 / (dis_c_ + 1))
                 else C.powQ (2 * r) (-(1 / (dis_c_ + 1)))))))))

/-- Polynomial-mutation loop of variation (modeoptimizer.cpp 161-176). -/
def polyLoop (dis_m_ : ℚ) : List (Nat × Nat) → Mat → M St Mat
  | [], off => pureM off
  | pi :: rest, off =>
    bindM (rand01 C) (fun site =>
      if site < C.pro_m / (C.dim : ℚ) then
        bindM (rand01 C) (fun mu =>
          polyLoop dis_m_ rest (updM off pi.2 pi.1
            (if mu ≤ 1 / 2 then
              off pi.2 pi.1 + scaleF C pi.2 *
                (C.powQ (2 * mu + (1 - 2 * mu) *
                    C.powQ (1 - norm_i C pi.2 (off pi.2 pi.1)) (dis_m_ + 1))
                  (1 / (dis_m_ + 1)) - 1)
             else
              off pi.2 pi.1 + scaleF C pi.2 *
                (1 - C.powQ (2 * (1 - mu) + 2 * (mu - 1 / 2) *
                    C.powQ (1 - norm_i C pi.2 (off pi.2 pi.1)) (dis_m_ + 1))
                  (1 / (dis_m_ + 1))))))
      else polyLoop dis_m_ rest off)

/-- variation (modeoptimizer.cpp 124-179): SBX crossover of the two
column halves followed by polynomial mutation, clamped to the box. -/
def variation (x : Mat) (ncols : Nat) : M St Mat :=
  bindM (rand01 C) (fun uc =>
  bindM (rand01 C) (fun um =>
  bindM (if C.pro_c < 1 then
      bindM (drawN C C.dim) (fun us => pureM (fun i => us.getD i 0))
    else pureM (fun _ => 0)) (fun to1 =>
  bindM (betaLoop C ((1 / 2 * uc + 1 / 2) * C.dis_c) to1
      (pairList (ncols / 2) C.dim) (fun _ _ => 0)) (fun beta =>
  bindM (polyLoop C ((1 / 2 * um + 1 / 2) * C.dis_m)
      (pairList (2 * (ncols / 2)) C.dim)
      (fun i p =>
        if p < ncols / 2 then
          (x i p + x i (ncols / 2 + p)) * (1 / 2) +
            beta i p * (x i p - x i (ncols / 2 + p)) * (1 / 2)
        else
          (x i (p - ncols / 2) + x i (ncols / 2 + (p - ncols / 2))) * (1 / 2) -
            beta i (p - ncols / 2) *
              (x i (p - ncols / 2) - x i (ncols / 2 + (p - ncols / 2))) * (1 / 2)))
    (fun off2 =>
  pureM (fun r c => max (C.lower r) (min (off2 r c) (C.upper r))))))))

/-- Rejection loop choosing r1, r2, r3 (modeoptimizer.cpp 200-210); all
three are redrawn on every attempt; with pareto_update > 0 the r3 draw is
the elite-biased (int)(pow(u, 1+pareto_update) * popsize). -/
def pickR123 (p : Nat) : Nat → M St (Nat × Nat × Nat)
  | 0 => failM
  | f + 1 =>
    bindM (randInt C C.popsize) (fun r1 =>
    bindM (randInt C C.popsize) (fun r2 =>
    bindM (bindM getM (fun s =>
        if 0 < s.pareto_update then
          bindM (rand01 C) (fun u =>
            pureM (cTrunc (C.powQ u (1 + s.pareto_update) * (C.popsize : ℚ))).toNat)
        else randInt C C.popsize)) (fun r3 =>
    if r3 = p ∨ r3 = r1 ∨ r3 = r2 ∨ r2 = p ∨ r2 = r1 ∨ r1 = p then
      pickR123 p f
    else pureM (r1, r2, r3))))

/-- DE crossover loop (modeoptimizer.cpp 216-218): off the pivot, with
probability 1−CR the parent coordinate is restored. -/
def deCross (xp : Nat → ℚ) (CRv : ℚ) (r : Nat) :
    List Nat → (Nat → ℚ) → M St (Nat → ℚ)
  | [], x => pureM x
  | j :: js, x =>
    if j = r then deCross xp CRv r js x
    else
      bindM (rand01 C) (fun c =>
        if CRv < c then deCross xp CRv r js (upd x j (xp j))
        else deCross xp CRv r js x)

/-- nextX (modeoptimizer.cpp 181-222). -/
def nextX (fuel p : Nat) : M St (Nat → ℚ) :=
  bindM (if p = 0 then
      bindM (setM (fun t => { t with iterations := t.iterations + 1 })) (fun _ =>
      bindM getM (fun s =>
        if s.iterations % C.log_period = 0 then
          (if C.logCb (2 * C.popsize) s.popX s.popY then
            setM (fun t => { t with terminateF := true })
          else pureM ())
        else pureM ()))
    else pureM ()) (fun _ =>
  bindM getM (fun s =>
  if s.nsga_update then
    bindM (setM (fun t => { t with vp := (t.vp + 1) % C.popsize })) (fun _ =>
      pureM (colOf s.vX s.vp))
  else
    bindM (if p = 0 then
        setM (fun t => { t with
          CR := if t.iterations % 2 = 0 then 1 / 2 * C.CR0 else C.CR0
          F := if t.iterations % 2 = 0 then 1 / 2 * C.F0 else C.F0 })
      else pureM ()) (fun _ =>
    bindM getM (fun s1 =>
    bindM (pickR123 C p fuel) (fun r123 =>
    bindM (randInt C C.dim) (fun r =>
    bindM (deCross C (colOf s1.popX p) s1.CR r (List.range C.dim)
        (fun i => s1.popX i r123.2.2 +
          (s1.popX i r123.1 - s1.popX i r123.2.1) * s1.F)) (fun x4 =>
    modify C (getClosestFeasible C x4))))))))

/-- Columns of the 2N population whose domination score equals d. -/
def levelIdx (domination : Nat → ℚ) (n d : Nat) : List Nat :=
  (List.range n).filter (fun i => decide (domination i = (d : ℚ)))

/-- Crowding-ordered partial admission of pop_update (modeoptimizer.cpp
428-434): walk the descending-crowding index list, stop as soon as
popsize columns are admitted. -/
def fillLoop (x0 y0 : Mat) (level : List Nat) (popsize : Nat) :
    List Nat → List (Nat → ℚ) × List (Nat → ℚ) →
      List (Nat → ℚ) × List (Nat → ℚ)
  | [], acc => acc
  | k :: ks, acc =>
    if popsize ≤ acc.1.length then acc
    else
      fillLoop x0 y0 level popsize ks
        (acc.1 ++ [colOf x0 (level.getD k 0)], acc.2 ++ [colOf y0 (level.getD k 0)])

/-- Admission walk of pop_update (modeoptimizer.cpp 408-438) from
domination level d down to 0: a level that still fits is appended whole;
the first level that does not fit is admitted by descending crowding
distance when it has more than one member, and otherwise contributes
nothing (the locally shadowed index vector of the source); either way the
walk then stops. -/
def admitLoop (x0 y0 : Mat) (domination : Nat → ℚ) (n popsize : Nat) :
    Nat → List (Nat → ℚ) × List (Nat → ℚ) → List (Nat → ℚ) × List (Nat → ℚ)
  | d, acc =>
    let level := levelIdx domination n d
    if acc.1.length + level.length ≤ popsize then
      match d with
      | 0 => (acc.1 ++ level.map (colOf x0), acc.2 ++ level.map (colOf y0))
      | d' + 1 =>
        admitLoop x0 y0 domination n popsize d'
          (acc.1 ++ level.map (colOf x0), acc.2 ++ level.map (colOf y0))
    else
      if 1 < level.length then
        fillLoop x0 y0 level popsize
          ((sort_index level.length
              (crowd_dist (fun r k => y0 r (level.getD k 0)) level.length)).reverse)
          acc
      else acc

/-- pop_update (modeoptimizer.cpp 396-445). -/
def pop_update : M St Unit :=
  bindM getM (fun s =>
  bindM (setM (fun t =>
    let x0 : Mat :=
      if C.nobj = 1 then
        (fun r c => s.popX r
          (((sort_index (2 * C.popsize) (fun c2 => s.popY 0 c2)).reverse).getD c 0))
      else s.popX
    let y0 : Mat :=
      if C.nobj = 1 then
        (fun r c => s.popY r
          (((sort_index (2 * C.popsize) (fun c2 => s.popY 0 c2)).reverse).getD c 0))
      else s.popY
    let domination := pareto C y0 (2 * C.popsize)
    let xy := admitLoop x0 y0 domination (2 * C.popsize) C.popsize
      (cTrunc (maxCoeffL ((List.range (2 * C.popsize)).map domination))).toNat
      ([], [])
    { t with
      popX := fun r c =>
        if c < C.popsize then (xy.1.getD c (fun _ => 0)) r else t.popX r c
      popY := fun r c =>
        if c < C.popsize then (xy.2.getD c (fun _ => 0)) r else t.popY r c })) (fun _ =>
  bindM getM (fun t =>
  if t.nsga_update then
    bindM (variation C t.popX C.popsize) (fun vx =>
      setM (fun u => { u with vX := vx }))
  else pureM ())))

end MODE

namespace MODE

variable (C : Ctx)

/-- ask (modeoptimizer.cpp 447-452): returns the trial vector and its
slot id, advancing the cursor modulo popsize. -/
def ask (fuel : Nat) : M St ((Nat → ℚ) × Nat) :=
  bindM getM (fun s =>
  bindM (nextX C fuel s.pos) (fun x =>
  bindM (setM (fun t => { t with pos := (t.pos + 1) % C.popsize })) (fun _ =>
  pureM (x, s.pos))))

/-- Flush loop of tell (modeoptimizer.cpp 469-479): copy every ready
pending slot into the offspring columns from popsize up, clearing the
ready marks; the source breaks once the write position passes the last
column. -/
def flushGo (twoN : Nat) : List Nat → Nat → St → St
  | [], _, t => t
  | dp :: rest, p, t =>
    if t.vdone dp then
      let t1 : St := { t with
        popX := updCol t.popX p (colOf t.nX dp)
        popY := updCol t.popY p (colOf t.nY dp)
        vdone := fun d => if d = dp then false else t.vdone d }
      if twoN ≤ p then t1 else flushGo twoN rest (p + 1) t1
    else flushGo twoN rest p t

def flushPending (t : St) : St :=
  flushGo (2 * C.popsize) (List.range (2 * C.popsize)) C.popsize t

/-- Count of ready pending slots. -/
def readyCount (t : St) : Nat :=
  ((List.range (2 * C.popsize)).filter (fun d => t.vdone d)).length

/-- First free pending slot. -/
def freeSlot (t : St) : Nat :=
  (((List.range (2 * C.popsize)).find? (fun d => ! t.vdone d)).getD
    (2 * C.popsize))

/-- Store of an admitted result (modeoptimizer.cpp 461-463): the pending
columns at the first free slot of the snapshot s receive x and y, and the
slot is marked ready. -/
def tellStore (y x : Nat → ℚ) (s t : St) : St :=
  { t with
    nX := updCol t.nX (freeSlot C s) x
    nY := updCol t.nY (freeSlot C s) y
    vdone := fun d => if d = freeSlot C s then true else t.vdone d }

/-- tell (modeoptimizer.cpp 454-486): drop the result if no component
improves on the parent slot, else store it in the first free pending
slot; once popsize slots are ready flush them into the offspring columns
and run pop_update; n_evals is bumped for every admitted result. -/
def tell (y x : Nat → ℚ) (p : Nat) : M St Nat :=
  bindM getM (fun s =>
  if is_dominated_vec y (C.nobj + C.ncon) s.popY p then pureM s.stop
  else
    bindM (setM (fun t => tellStore C y x s t)) (fun _ =>
    bindM getM (fun s1 =>
    bindM (if C.popsize ≤ readyCount C s1 then
        bindM (setM (fun t => flushPending C t)) (fun _ => pop_update C)
      else pureM ()) (fun _ =>
    bindM (setM (fun t => { t with n_evals := t.n_evals + 1 })) (fun _ =>
    bindM getM (fun s2 => pureM s2.stop))))))

/-- Copy loop of tellAll (modeoptimizer.cpp 512-513). -/
def tellCopy (ys : Mat) : List Nat → St → St
  | [], t => t
  | p :: ps, t =>
    tellCopy ys ps { t with popY := updCol t.popY (C.popsize + p) (colOf ys p) }

/-- tellAll (modeoptimizer.cpp 511-518). -/
def tellAll (ys : Mat) : M St Nat :=
  bindM (setM (tellCopy C ys (List.range C.popsize))) (fun _ =>
  bindM (pop_update C) (fun _ =>
  bindM getM (fun s => pureM s.stop)))

/-- tellAll with switch (modeoptimizer.cpp 520-524). -/
def tellAllSwitch (ys : Mat) (nsga : Bool) (pu : ℚ) : M St Nat :=
  bindM (setM (fun t => { t with nsga_update := nsga, pareto_update := pu }))
    (fun _ => tellAll C ys)

/-- askAll fill loop (modeoptimizer.cpp 504-507). -/
def askAllGo (fuel : Nat) : List Nat → M St Unit
  | [] => pureM ()
  | p :: ps =>
    bindM (nextX C fuel p) (fun x =>
    bindM (setM (fun t => { t with popX := updCol t.popX (C.popsize + p) x }))
      (fun _ => askAllGo fuel ps))

/-- askAll (modeoptimizer.cpp 503-509): fills the offspring columns and
returns them. -/
def askAll (fuel : Nat) : M St Mat :=
  bindM (askAllGo C fuel (List.range C.popsize)) (fun _ =>
  bindM getM (fun s => pureM (fun r c => s.popX r (C.popsize + c))))

/-- getPopulation (modeoptimizer.cpp 526-528): the first popsize
columns. -/
def getPopulation : M St Mat :=
  bindM getM (fun s => pureM (fun r c => s.popX r c))

/-- Body of one serial generation (modeoptimizer.cpp 492-498). -/
def genM (fuel : Nat) : List Nat → M St Unit
  | [] => pureM ()
  | p :: ps =>
    bindM (nextX C fuel p) (fun x =>
    bindM (evalF C x) (fun y =>
    bindM (setM (fun t => { t with
      popX := updCol t.popX (C.popsize + p) x
      popY := updCol t.popY (C.popsize + p) y })) (fun _ =>
    genM fuel ps)))

/-- Serial generation loop of doOptimize (modeoptimizer.cpp 491-500). -/
def doOptLoop (fuel : Nat) : Nat → M St Unit
  | 0 => failM
  | g + 1 =>
    bindM getM (fun s =>
      if s.evalCount < C.maxEvaluations ∧ s.terminateF = false then
        bindM (genM C fuel (List.range C.popsize)) (fun _ =>
        bindM (pop_update C) (fun _ => doOptLoop fuel g))
      else pureM ())

/-- doOptimize (modeoptimizer.cpp 488-501). -/
def doOptimizeM (fuel gens : Nat) : M St Unit :=
  bindM (setM (fun t => { t with iterations := 0, evalCount := 0 }))
    (fun _ => doOptLoop C fuel gens)

/-- Completion-order draw of the parallel evaluator model: the oracle
sched picks which in-flight evaluation finishes next. -/
def schedPick (len : Nat) : M St Nat := fun t =>
  some (C.sched t.schedIdx % len, { t with schedIdx := t.schedIdx + 1 })

/-- Pipeline priming of do_optimize_delayed_update (modeoptimizer.cpp
537-542): ask and dispatch W trials.  A dispatched evaluation is
computed eagerly (the worker runs it) but only counted on completion. -/
def primeGo (fuel : Nat) :
    Nat → List ((Nat → ℚ) × Nat) → (Nat → (Nat → ℚ)) →
      M St (List ((Nat → ℚ) × Nat) × (Nat → (Nat → ℚ)))
  | 0, pend, ex => pureM (pend, ex)
  | k + 1, pend, ex =>
    bindM (ask C fuel) (fun xp =>
      primeGo fuel k (pend ++ [(evalPure C xp.1, xp.2)]) (upd ex xp.2 xp.1))

/-- Driver loop of do_optimize_delayed_update (modeoptimizer.cpp
543-555): pop one completed result (counting it), tell it, and dispatch a
replacement unless the budget is already met. -/
def delayedLoop (fuel : Nat) :
    Nat → List ((Nat → ℚ) × Nat) → (Nat → (Nat → ℚ)) →
      M St (List ((Nat → ℚ) × Nat))
  | 0, _, _ => failM
  | g + 1, pend, ex =>
    bindM getM (fun s =>
      if s.evalCount < C.maxEvaluations ∧ s.terminateF = false then
        if pend.length = 0 then failM
        else
          bindM (schedPick C pend.length) (fun k =>
          bindM (setM (fun t => { t with evalCount := t.evalCount + 1 })) (fun _ =>
          bindM (tell C (pend.getD k (fun _ => 0, 0)).1
              (ex (pend.getD k (fun _ => 0, 0)).2)
              (pend.getD k (fun _ => 0, 0)).2) (fun _ =>
          bindM getM (fun s1 =>
          if C.maxEvaluations ≤ s1.evalCount then pureM (pend.eraseIdx k)
          else
            bindM (ask C fuel) (fun xp =>
              delayedLoop fuel g
                (pend.eraseIdx k ++ [(evalPure C xp.1, xp.2)])
                (upd ex xp.2 xp.1))))))
      else pureM pend)

/-- do_optimize_delayed_update (modeoptimizer.cpp 530-556); the final
state update is the drain: the in-flight evaluations complete and are
counted. -/
def do_optimize_delayed_update (fuel gens workers : Nat) : M St Unit :=
  bindM (setM (fun t => { t with iterations := 0, evalCount := 0 })) (fun _ =>
  bindM (primeGo C fuel (min workers C.popsize) [] (fun _ _ => 0)) (fun pe =>
  bindM (delayedLoop C fuel gens pe.1 pe.2) (fun rem =>
  setM (fun t => { t with evalCount := t.evalCount + rem.length }))))

/-- Population fill loop of init (modeoptimizer.cpp 561-564). -/
def initPop : List Nat → M St Unit
  | [] => pureM ()
  | p :: ps =>
    bindM (sample C) (fun x =>
    bindM (setM (fun t => { t with
      popX := updCol t.popX p x
      popY := updCol t.popY p (fun _ => DBL_MAX) })) (fun _ =>
    initPop ps))

/-- State at entry of the constructor, before init() runs. -/
def st0 : St where
  idx := 0
  schedIdx := 0
  evalCount := 0
  terminateF := false
  iterations := 0
  n_evals := 0
  pos := 0
  vp := 0
  stop := 0
  F := C.F0
  CR := C.CR0
  nsga_update := C.nsga_update0
  pareto_update := C.pareto_update0
  popX := fun _ _ => 0
  popY := fun _ _ => 0
  nX := fun _ _ => 0
  nY := fun _ _ => 0
  vX := fun _ _ => 0
  vdone := fun _ => false

/-- init (modeoptimizer.cpp 558-571). -/
def initM : M St Unit :=
  bindM (initPop C (List.range C.popsize)) (fun _ =>
    setM (fun t => { t with vX := t.popX }))

/-- Marshalling of tellMODE_C (modeoptimizer.cpp 730-742): the row count
and the column matrix actually built from the flat buffer; the source
reads nobj (not nobj+ncon) consecutive entries per column. -/
def tellMODE_vals (ys : Nat → ℚ) : Nat × Mat :=
  (C.nobj, fun r p => ys (p * C.nobj + r))

/-- tellMODE_C (modeoptimizer.cpp 730-742). -/
def tellMODE_C (ys : Nat → ℚ) : M St Nat := tellAll C (tellMODE_vals C ys).2

/-- Inner copy loop of populationMODE_C (modeoptimizer.cpp 764-766): each
assignment writes the caller value into the LOCAL column copy x (the
first component returned is the caller buffer, which no iteration
writes). -/
def popLocalLoop (xs : Nat → ℚ) (pdim : Nat) :
    List Nat → (Nat → ℚ) → (Nat → ℚ) × (Nat → ℚ)
  | [], x => (xs, x)
  | i :: is, x => popLocalLoop xs pdim is (upd x i (xs (pdim + i)))

/-- populationMODE_C (modeoptimizer.cpp 758-769): builds local copies of
the population columns, overwrites them from the caller buffer, discards
them, and returns the stop flag; the buffer itself is returned as the
loop leaves it. -/
def populationMODE_C (xs : Nat → ℚ) : M St (Nat × (Nat → ℚ)) :=
  bindM getM (fun s =>
    pureM (s.stop,
      (List.range C.popsize).foldl
        (fun buf p =>
          (popLocalLoop buf (p * C.dim) (List.range C.dim) (colOf s.popX p)).1)
        xs))

end MODE

/-- The computation m leaves the counter cnt unchanged whenever it
succeeds. -/
def EvEq {σ α : Type} (cnt : σ → Nat) (m : M σ α) : Prop :=
  ∀ s a s', m s = some (a, s') → cnt s' = cnt s

theorem evEq_pureM {σ α : Type} (cnt : σ → Nat) (a : α) : EvEq cnt (pureM a) := by
  intro s b s' h
  simp only [pureM, Option.some.injEq, Prod.mk.injEq] at h
  rw [← h.2]

theorem evEq_failM {σ α : Type} (cnt : σ → Nat) : EvEq cnt (failM (α := α)) := by
  intro s b s' h
  simp [failM] at h

theorem evEq_getM {σ : Type} (cnt : σ → Nat) : EvEq cnt getM := by
  intro s b s' h
  simp only [getM, Option.some.injEq, Prod.mk.injEq] at h
  rw [← h.2]

theorem evEq_setM {σ : Type} (cnt : σ → Nat) (f : σ → σ)
    (hf : ∀ s, cnt (f s) = cnt s) : EvEq cnt (setM f) := by
  intro s b s' h
  simp only [setM, Option.some.injEq, Prod.mk.injEq] at h
  rw [← h.2, hf]

theorem evEq_bindM {σ α β : Type} {cnt : σ → Nat} {m : M σ α}
    {f : α → M σ β} (hm : EvEq cnt m) (hf : ∀ a, EvEq cnt (f a)) :
    EvEq cnt (bindM m f) := by
  intro s b s' h
  rcases bindM_eq_some.mp h with ⟨a, s1, h1, h2⟩
  rw [hf a s1 b s' h2, hm s a s1 h1]

theorem evEq_ite {σ α : Type} (cnt : σ → Nat) {c : Prop} [Decidable c]
    {m1 m2 : M σ α} (h1 : EvEq cnt m1) (h2 : EvEq cnt m2) :
    EvEq cnt (if c then m1 else m2) := by
  by_cases hc : c
  · simpa [hc] using h1
  · simpa [hc] using h2

theorem evBnd_of_evEq {σ α : Type} {cnt : σ → Nat} {m : M σ α} {k : Nat}
    (h : EvEq cnt m) : EvBnd cnt m k := by
  intro s a s' hs
  rw [h s a s' hs]
  omega

namespace MODE

variable (C : Ctx)

theorem evEq_nextR : EvEq St.evalCount (nextR C) := by
  intro s b s' h
  simp only [nextR, Option.some.injEq, Prod.mk.injEq] at h
  rw [← h.2]

theorem evEq_rand01 : EvEq St.evalCount (rand01 C) := evEq_nextR C

theorem evEq_randInt (mx : Nat) : EvEq St.evalCount (randInt C mx) :=
  evEq_bindM (evEq_rand01 C) (fun _ => evEq_pureM _ _)

theorem evEq_drawN : ∀ n, EvEq St.evalCount (drawN C n)
  | 0 => evEq_pureM _ _
  | n + 1 => by
    rw [drawN]
    exact evEq_bindM (evEq_nextR C)
      (fun g => evEq_bindM (evEq_drawN n) (fun gs => evEq_pureM _ _))

theorem evEq_sample : EvEq St.evalCount (sample C) :=
  evEq_bindM (evEq_drawN C _) (fun _ => evEq_pureM _ _)

theorem evEq_sample_i (i : Nat) : EvEq St.evalCount (sample_i C i) :=
  evEq_bindM (evEq_rand01 C) (fun _ => evEq_pureM _ _)

theorem evEq_mutLoop (ints : Nat → Bool) (nInts toMut : ℚ) :
    ∀ l x, EvEq St.evalCount (mutLoop C ints nInts toMut l x)
  | [], x => evEq_pureM _ _
  | i :: is, x => by
    rw [mutLoop]
    refine evEq_ite _ ?_ (evEq_mutLoop ints nInts toMut is x)
    refine evEq_bindM (evEq_rand01 C) (fun c => ?_)
    refine evEq_ite _ ?_ (evEq_mutLoop ints nInts toMut is x)
    exact evEq_bindM (evEq_sample_i C i)
      (fun v => evEq_mutLoop ints nInts toMut is _)

theorem evEq_modify (x : Nat → ℚ) : EvEq St.evalCount (modify C x) := by
  unfold modify
  cases C.isInt with
  | none => exact evEq_pureM _ _
  | some ints =>
    exact evEq_bindM (evEq_rand01 C) (fun r => evEq_mutLoop C ints _ _ _ x)

theorem evEq_betaLoop (dc : ℚ) (to1 : Nat → ℚ) :
    ∀ l beta, EvEq St.evalCount (betaLoop C dc to1 l beta)
  | [], beta => evEq_pureM _ _
  | pi :: rest, beta => by
    rw [betaLoop]
    refine evEq_bindM (evEq_rand01 C) (fun u1 => ?_)
    refine evEq_ite _ (evEq_betaLoop dc to1 rest _) ?_
    refine evEq_bindM (evEq_rand01 C) (fun r => ?_)
    exact evEq_bindM (evEq_rand01 C) (fun u2 => evEq_betaLoop dc to1 rest _)

theorem evEq_polyLoop (dm : ℚ) :
    ∀ l off, EvEq St.evalCount (polyLoop C dm l off)
  | [], off => evEq_pureM _ _
  | pi :: rest, off => by
    rw [polyLoop]
    refine evEq_bindM (evEq_rand01 C) (fun site => ?_)
    refine evEq_ite _ ?_ (evEq_polyLoop dm rest off)
    exact evEq_bindM (evEq_rand01 C) (fun mu => evEq_polyLoop dm rest _)

theorem evEq_variation (x : Mat) (ncols : Nat) :
    EvEq St.evalCount (variation C x ncols) := by
  unfold variation
  refine evEq_bindM (evEq_rand01 C) (fun uc => ?_)
  refine evEq_bindM (evEq_rand01 C) (fun um => ?_)
  refine evEq_bindM
    (evEq_ite _ (evEq_bindM (evEq_drawN C _) (fun us => evEq_pureM _ _))
      (evEq_pureM _ _)) (fun to1 => ?_)
  refine evEq_bindM (evEq_betaLoop C _ _ _ _) (fun beta => ?_)
  exact evEq_bindM (evEq_polyLoop C _ _ _) (fun off2 => evEq_pureM _ _)

theorem evEq_pickR123 (p : Nat) :
    ∀ fuel, EvEq St.evalCount (pickR123 C p fuel)
  | 0 => evEq_failM _
  | f + 1 => by
    rw [pickR123]
    refine evEq_bindM (evEq_randInt C _) (fun r1 => ?_)
    refine evEq_bindM (evEq_randInt C _) (fun r2 => ?_)
    refine evEq_bindM
      (evEq_bindM (evEq_getM _) (fun s =>
        evEq_ite _ (evEq_bindM (evEq_rand01 C) (fun u => evEq_pureM _ _))
          (evEq_randInt C _))) (fun r3 => ?_)
    exact evEq_ite _ (evEq_pickR123 p f) (evEq_pureM _ _)

theorem evEq_deCross (xp : Nat → ℚ) (CRv : ℚ) (r : Nat) :
    ∀ l x, EvEq St.evalCount (deCross C xp CRv r l x)
  | [], x => evEq_pureM _ _
  | j :: js, x => by
    rw [deCross]
    refine evEq_ite _ (evEq_deCross xp CRv r js x) ?_
    refine evEq_bindM (evEq_rand01 C) (fun c => ?_)
    exact evEq_ite _ (evEq_deCross xp CRv r js _) (evEq_deCross xp CRv r js x)

theorem evEq_nextX (fuel p : Nat) : EvEq St.evalCount (nextX C fuel p) := by
  unfold nextX
  refine evEq_bindM
    (evEq_ite _
      (evEq_bindM (evEq_setM _ _ (fun _ => rfl)) (fun _ =>
        evEq_bindM (evEq_getM _) (fun s =>
          evEq_ite _ (evEq_ite _ (evEq_setM _ _ (fun _ => rfl)) (evEq_pureM _ _))
            (evEq_pureM _ _))))
      (evEq_pureM _ _)) (fun _ => ?_)
  refine evEq_bindM (evEq_getM _) (fun s => ?_)
  refine evEq_ite _
    (evEq_bindM (evEq_setM _ _ (fun _ => rfl)) (fun _ => evEq_pureM _ _)) ?_
  refine evEq_bindM
    (evEq_ite _ (evEq_setM _ _ (fun _ => rfl)) (evEq_pureM _ _)) (fun _ => ?_)
  refine evEq_bindM (evEq_getM _) (fun s1 => ?_)
  refine evEq_bindM (evEq_pickR123 C _ fuel) (fun r123 => ?_)
  refine evEq_bindM (evEq_randInt C _) (fun r => ?_)
  refine evEq_bindM (evEq_deCross C _ _ _ _ _) (fun x4 => ?_)
  exact evEq_modify C _

theorem evEq_pop_update : EvEq St.evalCount (pop_update C) := by
  unfold pop_update
  refine evEq_bindM (evEq_getM _) (fun s => ?_)
  refine evEq_bindM (evEq_setM _ _ (fun _ => rfl)) (fun _ => ?_)
  refine evEq_bindM (evEq_getM _) (fun t => ?_)
  refine evEq_ite _ ?_ (evEq_pureM _ _)
  exact evEq_bindM (evEq_variation C _ _)
    (fun vx => evEq_setM _ _ (fun _ => rfl))

theorem evEq_ask (fuel : Nat) : EvEq St.evalCount (ask C fuel) := by
  unfold ask
  refine evEq_bindM (evEq_getM _) (fun s => ?_)
  refine evEq_bindM (evEq_nextX C fuel _) (fun x => ?_)
  exact evEq_bindM (evEq_setM _ _ (fun _ => rfl)) (fun _ => evEq_pureM _ _)

theorem flushGo_evalCount (twoN : Nat) :
    ∀ l p t, (flushGo twoN l p t).evalCount = t.evalCount
  | [], _, _ => rfl
  | dp :: rest, p, t => by
    rw [flushGo]
    split
    · split
      · rfl
      · rw [flushGo_evalCount twoN rest (p + 1) _]
    · exact flushGo_evalCount twoN rest p t

theorem evEq_tell (y x : Nat → ℚ) (p : Nat) :
    EvEq St.evalCount (tell C y x p) := by
  unfold tell
  refine evEq_bindM (evEq_getM _) (fun s => ?_)
  refine evEq_ite _ (evEq_pureM _ _) ?_
  refine evEq_bindM (evEq_setM _ _ (fun _ => rfl)) (fun _ => ?_)
  refine evEq_bindM (evEq_getM _) (fun s1 => ?_)
  refine evEq_bindM
    (evEq_ite _
      (evEq_bindM (evEq_setM _ _ (fun t => flushGo_evalCount _ _ _ _))
        (fun _ => evEq_pop_update C))
      (evEq_pureM _ _)) (fun _ => ?_)
  refine evEq_bindM (evEq_setM _ _ (fun _ => rfl)) (fun _ => ?_)
  exact evEq_bindM (evEq_getM _) (fun s2 => evEq_pureM _ _)

theorem evalF_evalCount (x : Nat → ℚ) :
    ∀ s y s', evalF C x s = some (y, s') → s'.evalCount = s.evalCount + 1 := by
  intro s y s' h
  simp only [evalF, Option.some.injEq, Prod.mk.injEq] at h
  rw [← h.2]

theorem evBnd_genM (fuel : Nat) :
    ∀ l, EvBnd St.evalCount (genM C fuel l) l.length
  | [] => evBnd_of_evEq (evEq_pureM _ _)
  | p :: ps => by
    rw [genM]
    have h : EvBnd St.evalCount
        (bindM (nextX C fuel p) (fun x =>
          bindM (evalF C x) (fun y =>
            bindM (setM (fun t => { t with
              popX := updCol t.popX (C.popsize + p) x
              popY := updCol t.popY (C.popsize + p) y })) (fun _ =>
            genM C fuel ps)))) (0 + (1 + (0 + ps.length))) :=
      evBnd_bindM 0 (1 + (0 + ps.length)) (evBnd_of_evEq (evEq_nextX C fuel p))
        (fun x => evBnd_bindM 1 (0 + ps.length)
          (fun s y s' hs => by rw [evalF_evalCount C x s y s' hs])
          (fun y => evBnd_bindM 0 ps.length
            (evBnd_of_evEq (evEq_setM _ _ (fun _ => rfl)))
            (fun _ => evBnd_genM fuel ps)))
    refine evBnd_mono h (by simp [List.length_cons]; omega)

theorem doOptLoop_evalBound (fuel : Nat) :
    ∀ gens s a s', doOptLoop C fuel gens s = some (a, s') →
      s'.evalCount ≤ max s.evalCount (C.maxEvaluations - 1 + C.popsize)
  | 0 => by
    intro s a s' h
    simp [doOptLoop, failM] at h
  | gens + 1 => by
    intro s a s' h
    rw [doOptLoop] at h
    rcases bindM_eq_some.mp h with ⟨s0, s1, h0, h1⟩
    simp only [getM, Option.some.injEq, Prod.mk.injEq] at h0
    rcases h0 with ⟨e0a, e0b⟩
    rw [← e0a, ← e0b] at h1
    clear h e0a e0b
    split at h1
    case isTrue hlt =>
      rcases bindM_eq_some.mp h1 with ⟨u, s2, hgen, h2⟩
      have hc2 : s2.evalCount ≤ s.evalCount + (List.range C.popsize).length :=
        evBnd_genM C fuel (List.range C.popsize) s u s2 hgen
      rw [List.length_range] at hc2
      rcases bindM_eq_some.mp h2 with ⟨v, s3, hpu, h3⟩
      have hc3 : s3.evalCount = s2.evalCount := evEq_pop_update C s2 v s3 hpu
      have hr := doOptLoop_evalBound fuel gens s3 a s' h3
      have : s3.evalCount ≤ C.maxEvaluations - 1 + C.popsize := by omega
      omega
    case isFalse =>
      have e1 : s' = s := by
        simp only [pureM, Option.some.injEq, Prod.mk.injEq] at h1
        rw [← h1.2]
      rw [e1]
      exact le_max_left _ _

end MODE

namespace MODE

variable (C : Ctx)

theorem primeGo_spec (fuel : Nat) :
    ∀ k pend ex s out s', primeGo C fuel k pend ex s = some (out, s') →
      out.1.length = pend.length + k ∧ s'.evalCount = s.evalCount
  | 0 => by
    intro pend ex s out s' h
    simp only [primeGo, pureM, Option.some.injEq, Prod.mk.injEq] at h
    rw [← h.1, ← h.2]
    exact ⟨rfl, rfl⟩
  | k + 1 => by
    intro pend ex s out s' h
    rw [primeGo] at h
    rcases bindM_eq_some.mp h with ⟨xp, s1, h1, h2⟩
    have e1 : s1.evalCount = s.evalCount := evEq_ask C fuel s xp s1 h1
    have h3 := primeGo_spec fuel k (pend ++ [(evalPure C xp.1, xp.2)])
      (upd ex xp.2 xp.1) s1 out s' h2
    rcases h3 with ⟨h3a, h3b⟩
    constructor
    · rw [h3a]
      simp only [List.length_append, List.length_cons, List.length_nil]
      omega
    · rw [h3b, e1]

theorem delayedLoop_bound (fuel W : Nat) :
    ∀ gens pend ex s rem s', pend.length ≤ W →
      s.evalCount < C.maxEvaluations →
      delayedLoop C fuel gens pend ex s = some (rem, s') →
      s'.evalCount + rem.length + 1 ≤ C.maxEvaluations + W
  | 0 => by
    intro pend ex s rem s' hlen hcnt h
    simp [delayedLoop, failM] at h
  | gens + 1 => by
    intro pend ex s rem s' hlen hcnt h
    rw [delayedLoop] at h
    rcases bindM_eq_some.mp h with ⟨s0, s1, h0, h1⟩
    simp only [getM, Option.some.injEq, Prod.mk.injEq] at h0
    rcases h0 with ⟨e0a, e0b⟩
    rw [← e0a, ← e0b] at h1
    clear h e0a e0b
    split at h1
    case isTrue hc =>
      split at h1
      case isTrue => simp [failM] at h1
      case isFalse hne =>
        rcases bindM_eq_some.mp h1 with ⟨k, s2, hk, h2⟩
        have hkspec : k = C.sched s.schedIdx % pend.length ∧
            s2.evalCount = s.evalCount := by
          simp only [schedPick, Option.some.injEq, Prod.mk.injEq] at hk
          exact ⟨hk.1.symm, by rw [← hk.2]⟩
        have hklt : k < pend.length := by
          rw [hkspec.1]
          exact Nat.mod_lt _ (by omega)
        rcases bindM_eq_some.mp h2 with ⟨u2, s3, hset, h3⟩
        have e3 : s3.evalCount = s2.evalCount + 1 := by
          simp only [setM, Option.some.injEq, Prod.mk.injEq] at hset
          rw [← hset.2]
        rcases bindM_eq_some.mp h3 with ⟨u3, s4, htell, h4⟩
        have e4 : s4.evalCount = s3.evalCount := evEq_tell C _ _ _ s3 u3 s4 htell
        rcases bindM_eq_some.mp h4 with ⟨s5, s6, h5, h6⟩
        simp only [getM, Option.some.injEq, Prod.mk.injEq] at h5
        rcases h5 with ⟨e5a, e5b⟩
        rw [← e5a, ← e5b] at h6
        have hel : (pend.eraseIdx k).length = pend.length - 1 :=
          List.length_eraseIdx_of_lt hklt
        split at h6
        case isTrue hge =>
          have e6 : rem = pend.eraseIdx k ∧ s' = s4 := by
            simp only [pureM, Option.some.injEq, Prod.mk.injEq] at h6
            exact ⟨h6.1.symm, h6.2.symm⟩
          rcases e6 with ⟨e6a, e6b⟩
          rw [e6a, e6b, hel, e4, e3, hkspec.2]
          omega
        case isFalse hlt2 =>
          rcases bindM_eq_some.mp h6 with ⟨xp, s7, hask, h7⟩
          have e7 : s7.evalCount = s4.evalCount := evEq_ask C fuel s4 xp s7 hask
          have hlen' : (pend.eraseIdx k ++ [(evalPure C xp.1, xp.2)]).length ≤ W := by
            simp only [List.length_append, List.length_cons, List.length_nil, hel]
            omega
          have hcnt' : s7.evalCount < C.maxEvaluations := by
            rw [e7]
            omega
          exact delayedLoop_bound fuel W gens _ _ s7 rem s' hlen' hcnt' h7
    case isFalse =>
      have e1 : rem = pend ∧ s' = s := by
        simp only [pureM, Option.some.injEq, Prod.mk.injEq] at h1
        exact ⟨h1.1.symm, h1.2.symm⟩
      rcases e1 with ⟨e1a, e1b⟩
      rw [e1a, e1b]
      omega

theorem delayed_total_bound (hmax : 1 ≤ C.maxEvaluations) :
    ∀ fuel gens workers s0 u s',
      do_optimize_delayed_update C fuel gens workers s0 = some (u, s') →
      s'.evalCount + 1 ≤ C.maxEvaluations + min workers C.popsize := by
  intro fuel gens workers s0 u s' h
  rw [do_optimize_delayed_update] at h
  rcases bindM_eq_some.mp h with ⟨u1, s1, h1, h2⟩
  have e1 : s1.evalCount = 0 := by
    simp only [setM, Option.some.injEq, Prod.mk.injEq] at h1
    rw [← h1.2]
  rcases bindM_eq_some.mp h2 with ⟨pe, s2, hp, h3⟩
  have hpspec := primeGo_spec C fuel (min workers C.popsize) [] (fun _ _ => 0)
    s1 pe s2 hp
  rcases bindM_eq_some.mp h3 with ⟨rem, s3, hd, h4⟩
  have hbound := delayedLoop_bound C fuel (min workers C.popsize) gens pe.1
    pe.2 s2 rem s3
    (by rw [hpspec.1]; simp)
    (by rw [hpspec.2, e1]; omega) hd
  have e4 : s'.evalCount = s3.evalCount + rem.length := by
    simp only [setM, Option.some.injEq, Prod.mk.injEq] at h4
    rw [← h4.2]
  omega

end MODE

/-- Concrete MODE context used for witnesses: NSGA update, dim 1, two
objectives, popsize 2, maxEvaluations 1. -/
def modeParCtx : MODE.Ctx where
  dim := 1
  nobj := 2
  ncon := 0
  func := fun _ => [D.fin 1, D.fin 2]
  logCb := fun _ _ _ => false
  lower := fun _ => 0
  upper := fun _ => 1
  R := fun _ => 0
  powQ := fun _ _ => 0
  sched := fun _ => 0
  popsize := 2
  maxEvaluations := 1
  F0 := 1/2
  CR0 := 9/10
  pro_c := 1
  dis_c := 20
  pro_m := 1
  dis_m := 20
  min_mutate := 1/10
  max_mutate := 1/2
  log_period := 1000
  isInt := none
  nsga_update0 := true
  pareto_update0 := 0

/-- Concrete MODE state used by the ask/tell witnesses: all pending
slots free and both parent fitness columns at DBL_MAX (as init() leaves
them before any offspring is admitted). -/
def modeParSt : MODE.St :=
  { MODE.st0 modeParCtx with popY := fun _ c => if c < 2 then DBL_MAX else 0 }

/-- State at the start of the first LDE generation of the concrete run:
init() followed by the iteration bump. -/
def ldeR_s1 : LDE.St := { LDE.initSt ldeCexCtx with iterations := 1 }

/-- State after slot 0 of the concrete run: six draws consumed, one
evaluation of [1/2] logged, nothing else changed (the no-improvement
branch with the reinitialization coin failing). -/
def ldeR_sA : LDE.St :=
  { ldeR_s1 with idx := 6, evalCount := 1, funcCalls := 1, evalLog := [[1/2]] }

/-- Slot 0 of the concrete run, traced as one kernel reduction. -/
theorem ldeR_slot0 : LDE.slotStep ldeCexCtx ldeCexCtx.F0 ldeCexCtx.CR0 4 0 ldeR_s1
    = some (false, ldeR_sA) := rfl

/-- Intermediate states of slot 1: each rejection-free draw advances the
stream index only. -/
def ldeR_sA7 : LDE.St := { ldeR_sA with idx := 7 }

def ldeR_sA8 : LDE.St := { ldeR_sA with idx := 8 }

def ldeR_sA9 : LDE.St := { ldeR_sA with idx := 9 }

/-- Trial vector of slot 1 before integer mutation. -/
def ldeR_xT : Nat → ℚ := upd (ldeR_sA.popX 1) 0 (1/2)

/-- Slot-1 vector after the integer mutation resamples coordinate 0 to
the truncated normal draw 3. -/
def ldeR_xM : Nat → ℚ := upd ldeR_xT 0 (3 : ℚ)

def ldeR_sA13 : LDE.St := { ldeR_sA with idx := 13 }

/-- State after the first slot-1 evaluation ([3], value 4). -/
def ldeR_sE1 : LDE.St :=
  { ldeR_sA13 with evalCount := 2, funcCalls := 2, evalLog := [[1/2], [3]] }

/-- Temporal-locality probe of slot 1 (evaluates to [7/4]). -/
def ldeR_xP : Nat → ℚ :=
  fun i => ldeR_sA.popX ldeR_sA.bestI i + (ldeR_xM i - ldeR_sA.popX 1 i) * (1 / 2)

def ldeR_sE2 : LDE.St := { ldeR_sE1 with idx := 15 }

/-- State after the probe evaluation: three evaluations logged. -/
def ldeR_sE3 : LDE.St :=
  { ldeR_sE2 with evalCount := 3, funcCalls := 3, evalLog := [[1/2], [3], [7/4]] }

/-- Population write of slot 1. -/
def ldeR_sB1 : LDE.St :=
  { ldeR_sE3 with
    popX := upd ldeR_sE3.popX 1 ldeR_xM
    popY := upd ldeR_sE3.popY 1 4
    popIter := upd ldeR_sE3.popIter 1 1 }

def ldeR_sB2 : LDE.St := { ldeR_sB1 with bestI := 1 }

def ldeR_sB3 : LDE.St :=
  { ldeR_sB2 with
    sigma := fun i => min (|ldeR_sB2.xmean i - ldeR_xM i| * (1 / 2))
      (ldeCexCtx.maxSigma i)
    xmean := ldeR_xM }

def ldeR_sB4 : LDE.St := { ldeR_sB3 with bestY := 4, bestX := ldeR_xM }

/-- Final state of the concrete run: the stop-fitness test fired. -/
def ldeR_sB : LDE.St := { ldeR_sB4 with stop := 1 }

theorem ldeR_pick1 : LDE.pickR1 ldeCexCtx 1 ldeR_sA.bestI 4 ldeR_sA =
    some (2, ldeR_sA7) := rfl

theorem ldeR_pick2 : LDE.pickR2 ldeCexCtx 1 ldeR_sA.bestI 2 4 ldeR_sA7 =
    some (3, ldeR_sA8) := rfl

theorem ldeR_piv : LDE.rndInt ldeCexCtx ldeCexCtx.dim ldeR_sA8 =
    some (0, ldeR_sA9) := rfl

theorem ldeR_trial : LDE.trialLoop ldeCexCtx (ldeR_sA.popX ldeR_sA.bestI)
    (ldeR_sA.popX 2) (ldeR_sA.popX 3) ldeCexCtx.F0 ldeCexCtx.CR0 0 4
    (List.range ldeCexCtx.dim) (ldeR_sA.popX 1) ldeR_sA9 =
    some (ldeR_xT, ldeR_sA9) := rfl

theorem ldeR_mod : LDE.modify ldeCexCtx 4 ldeR_xT ldeR_sA9 =
    some (ldeR_xM, ldeR_sA13) := rfl

theorem ldeR_ev1 : LDE.eval ldeCexCtx ldeR_xM ldeR_sA13 =
    some (4, ldeR_sE1) := rfl

theorem ldeR_ni : LDE.next_improve ldeCexCtx 4 (ldeR_sA.popX ldeR_sA.bestI)
    ldeR_xM (ldeR_sA.popX 1) ldeR_sE1 = some (ldeR_xP, ldeR_sE2) := rfl

theorem ldeR_ev2 : LDE.eval ldeCexCtx ldeR_xP ldeR_sE2 =
    some (4, ldeR_sE3) := rfl

/-- Slot 1 of the concrete run, assembled from its sub-steps: the
improvement branch evaluates the trial and the probe, then the
stop-fitness test fires. -/
theorem ldeR_slot1 : LDE.slotStep ldeCexCtx ldeCexCtx.F0 ldeCexCtx.CR0 4 1 ldeR_sA
    = some (true, ldeR_sB) := by
  refine Eq.trans (bindM_eq_step _ _ _ _ _
    (rfl : getM ldeR_sA = some (ldeR_sA, ldeR_sA))) ?_
  try simp only []
  refine Eq.trans (bindM_eq_step _ _ _ _ _ ldeR_pick1) ?_
  try simp only []
  refine Eq.trans (bindM_eq_step _ _ _ _ _ ldeR_pick2) ?_
  try simp only []
  refine Eq.trans (bindM_eq_step _ _ _ _ _ ldeR_piv) ?_
  try simp only []
  refine Eq.trans (bindM_eq_step _ _ _ _ _ ldeR_trial) ?_
  try simp only []
  refine Eq.trans (bindM_eq_step _ _ _ _ _ ldeR_mod) ?_
  try simp only []
  refine Eq.trans (bindM_eq_step _ _ _ _ _ ldeR_ev1) ?_
  try simp only []
  refine Eq.trans (bindM_eq_step _ _ _ _ _
    (rfl : getM ldeR_sE1 = some (ldeR_sE1, ldeR_sE1))) ?_
  try simp only []
  rw [if_pos (show (4 : ℚ) < ldeR_sE1.popY 1 by decide)]
  refine Eq.trans (bindM_eq_step _ _ _ _ _ ldeR_ni) ?_
  try simp only []
  refine Eq.trans (bindM_eq_step _ _ _ _ _ ldeR_ev2) ?_
  rfl

/-- Stepping rule of the generation loop: a slot that does not fire the
stop test passes its state to the remaining slots. -/
theorem genLoop_cons_false (C : LDE.Ctx) (F CR : ℚ) (fuel p : Nat) (ps : List Nat)
    (s s1 : LDE.St) (h : LDE.slotStep C F CR fuel p s = some (false, s1)) :
    LDE.genLoop C F CR fuel (p :: ps) s = LDE.genLoop C F CR fuel ps s1 := by
  show bindM (LDE.slotStep C F CR fuel p)
    (fun st => if st then pureM true else LDE.genLoop C F CR fuel ps) s = _
  rw [bindM_eq_step _ _ _ _ _ h]
  rfl

/-- Stepping rule of the generation loop: a slot that fires the stop test
ends the generation at once. -/
theorem genLoop_cons_true (C : LDE.Ctx) (F CR : ℚ) (fuel p : Nat) (ps : List Nat)
    (s s1 : LDE.St) (h : LDE.slotStep C F CR fuel p s = some (true, s1)) :
    LDE.genLoop C F CR fuel (p :: ps) s = some (true, s1) := by
  show bindM (LDE.slotStep C F CR fuel p)
    (fun st => if st then pureM true else LDE.genLoop C F CR fuel ps) s = _
  rw [bindM_eq_step _ _ _ _ _ h]
  rfl

/-- Stepping rule of the outer loop: below the budget, a generation that
returns true (stop-fitness) ends doOptimize with its state. -/
theorem genIter_succ_stop (C : LDE.Ctx) (fuel gens : Nat) (s s2 : LDE.St)
    (hlt : s.evalCount < C.maxEvaluations)
    (h : LDE.genLoop C
        (if (s.iterations + 1) % 2 = 0 then 1 / 2 * C.F0 else C.F0)
        (if (s.iterations + 1) % 2 = 0 then 1 / 2 * C.CR0 else C.CR0) fuel
        (List.range C.popsize) { s with iterations := s.iterations + 1 } =
      some (true, s2)) :
    LDE.genIter C fuel (gens + 1) s = some ((), s2) := by
  show bindM getM _ s = _
  rw [bindM_getM_run]
  try simp only []
  rw [if_pos hlt]
  rw [bindM_eq_step _ _ _ _ _
    (rfl : setM (fun t : LDE.St => { t with iterations := t.iterations + 1 }) s =
      some ((), { s with iterations := s.iterations + 1 }))]
  try simp only []
  rw [bindM_eq_step _ _ _ _ _ h]
  rfl

/-- First generation of the concrete run: slot 0 passes, slot 1 stops. -/
theorem ldeR_gen : LDE.genLoop ldeCexCtx ldeCexCtx.F0 ldeCexCtx.CR0 4 [0, 1, 2, 3]
    ldeR_s1 = some (true, ldeR_sB) := by
  rw [genLoop_cons_false ldeCexCtx ldeCexCtx.F0 ldeCexCtx.CR0 4 0 [1, 2, 3]
    ldeR_s1 ldeR_sA ldeR_slot0]
  exact genLoop_cons_true ldeCexCtx ldeCexCtx.F0 ldeCexCtx.CR0 4 1 [2, 3]
    ldeR_sA ldeR_sB ldeR_slot1

/-- The complete concrete LDE run: it ends with three evaluations on the
books although maxEvaluations is 1. -/
theorem ldeR_run : LDE.doOptimize ldeCexCtx 4 2 (LDE.initSt ldeCexCtx) =
    some ((), ldeR_sB) := by
  show LDE.genIter ldeCexCtx 4 (1 + 1) (LDE.initSt ldeCexCtx) = some ((), ldeR_sB)
  exact genIter_succ_stop ldeCexCtx 4 1 (LDE.initSt ldeCexCtx) ldeR_sB
    (by decide) ldeR_gen

/-- MODE context with a zero evaluation budget: its serial driver exits
before the first generation. -/
def modeZeroCtx : MODE.Ctx := { modeParCtx with maxEvaluations := 0 }

/-- Final state of the zero-budget serial MODE run. -/
def modeR_sZ : MODE.St :=
  { MODE.st0 modeZeroCtx with iterations := 0, evalCount := 0 }

/-- The zero-budget serial MODE run completes at once. -/
theorem modeR_serial : MODE.doOptimizeM modeZeroCtx 1 1 (MODE.st0 modeZeroCtx) =
    some ((), modeR_sZ) := rfl

/-- Final state of the one-worker delayed-update run on modeParCtx. -/
def modeR_sD : MODE.St :=
  ((MODE.do_optimize_delayed_update modeParCtx 4 4 1 (MODE.st0 modeParCtx)).map
    Prod.snd).getD (MODE.st0 modeParCtx)

/-- The one-worker delayed-update run on modeParCtx completes: one trial
is primed, counted on completion, told (and rejected), and the budget
check then drains the empty pipeline. -/
theorem modeR_delayed : MODE.do_optimize_delayed_update modeParCtx 4 4 1
    (MODE.st0 modeParCtx) = some ((), modeR_sD) :=
  opt_decomp _ _ _ (by decide)

/-- C1 counterexample: a serial LDE run (dim 1, popsize 4,
maxEvaluations 1, workers absent) performs 3 objective evaluations
before the stop-fitness test ends the first generation, exceeding
maxEvaluations + max(0, workers − 1) = 1: the generation loop checks the
budget only between generations. -/
theorem lde_budget_overshoot_cex :
    ldeCexCtx.maxEvaluations = 1 ∧
    (LDE.doOptimize ldeCexCtx 4 2 (LDE.initSt ldeCexCtx)).map
      (fun r => r.2.evalCount) = some 3 ∧ ¬ (3 ≤ 1) := by
  refine ⟨rfl, ?_, by omega⟩
  rw [ldeR_run]
  rfl

/-- C1 (amended): the budget is checked only between generations (serial)
or between dispatches (parallel), so a completed serial LDE run performs
at most maxEvaluations − 1 + 2·popsize evaluations, a completed serial
MODE run at most maxEvaluations − 1 + popsize, and the delayed-update
parallel driver with W = min(workers, popsize) workers at most
maxEvaluations + W − 1. -/
theorem evaluation_budget_amended :
    (∀ (C : LDE.Ctx) (fuel gens : Nat) (s : LDE.St),
        LDE.doOptimize C fuel gens (LDE.initSt C) = some ((), s) →
        s.evalCount ≤ C.maxEvaluations - 1 + 2 * C.popsize) ∧
    (∀ (C : MODE.Ctx) (fuel gens : Nat) (s0 : MODE.St) (u : Unit) (s' : MODE.St),
        MODE.doOptimizeM C fuel gens s0 = some (u, s') →
        s'.evalCount ≤ C.maxEvaluations - 1 + C.popsize) ∧
    (∀ (C : MODE.Ctx), 1 ≤ C.maxEvaluations →
      ∀ (fuel gens workers : Nat) (s0 : MODE.St) (u : Unit) (s' : MODE.St),
        MODE.do_optimize_delayed_update C fuel gens workers s0 = some (u, s') →
        s'.evalCount ≤ C.maxEvaluations + min workers C.popsize - 1) := by
  refine ⟨?_, ?_, ?_⟩
  · intro C fuel gens s h
    have hb := LDE.genIter_evalBound C fuel gens (LDE.initSt C) () s h
    have h0 : (LDE.initSt C).evalCount = 0 := rfl
    rw [h0] at hb
    omega
  · intro C fuel gens s0 u s' h
    rw [ MODE.doOptimizeM] at h
    rcases bindM_eq_some.mp h with ⟨u1, s1, h1, h2⟩
    have e1 : s1.evalCount = 0 := by
      simp only [setM, Option.some.injEq, Prod.mk.injEq] at h1
      rw [← h1.2]
    have hb := MODE.doOptLoop_evalBound C fuel gens s1 u s' h2
    rw [e1] at hb
    omega
  · intro C hmax fuel gens workers s0 u s' h
    have hb := MODE.delayed_total_bound C hmax fuel gens workers s0 u s' h
    omega

/-- C1 witness: the amended bounds instantiated on concrete completed
runs of all three drivers. -/
theorem evaluation_budget_amended_witness :
    (LDE.doOptimize ldeCexCtx 4 2 (LDE.initSt ldeCexCtx) = some ((), ldeR_sB) ∧
      ldeR_sB.evalCount ≤ ldeCexCtx.maxEvaluations - 1 + 2 * ldeCexCtx.popsize) ∧
    (MODE.doOptimizeM modeZeroCtx 1 1 (MODE.st0 modeZeroCtx) =
        some ((), modeR_sZ) ∧
      modeR_sZ.evalCount ≤ modeZeroCtx.maxEvaluations - 1 + modeZeroCtx.popsize) ∧
    (1 ≤ modeParCtx.maxEvaluations ∧
      MODE.do_optimize_delayed_update modeParCtx 4 4 1 (MODE.st0 modeParCtx) =
        some ((), modeR_sD) ∧
      modeR_sD.evalCount ≤
        modeParCtx.maxEvaluations + min 1 modeParCtx.popsize - 1) := by
  refine ⟨⟨ldeR_run, evaluation_budget_amended.1 ldeCexCtx 4 2 ldeR_sB ldeR_run⟩,
    ⟨modeR_serial, evaluation_budget_amended.2.1 modeZeroCtx 1 1
      (MODE.st0 modeZeroCtx) () modeR_sZ modeR_serial⟩,
    by decide, modeR_delayed, ?_⟩
  exact evaluation_budget_amended.2.2 modeParCtx (by decide) 4 4 1
    (MODE.st0 modeParCtx) () modeR_sD modeR_delayed

/-- C4: Fitness::eval calls the user objective exactly once (the single
application of func in the returned state, counted by funcCalls),
replaces a NaN or non-finite result with 1E99, increments the evaluation
counter by exactly one, returns the coerced value, and always succeeds
(a non-finite objective output never aborts the run). -/
theorem fitness_eval_spec :
    (∀ (C : LDE.Ctx) (X : Nat → ℚ) (s : LDE.St),
      LDE.eval C X s =
        some (coerceD (C.func ((List.range C.dim).map X)),
          { s with
            evalCount := s.evalCount + 1
            funcCalls := s.funcCalls + 1
            evalLog := s.evalLog ++ [(List.range C.dim).map X] })) ∧
    (∀ d : D, d.isFiniteD = false → coerceD d = QE99) ∧
    (∀ q : ℚ, coerceD (D.fin q) = q) := by
  refine ⟨fun C X s => rfl, ?_, fun q => rfl⟩
  intro d hd
  cases d with
  | fin q => simp [D.isFiniteD] at hd
  | nan => rfl
  | pinf => rfl
  | ninf => rfl

/-- C4 witness: the eval contract applied at a concrete state and a NaN
objective value. -/
theorem fitness_eval_spec_witness :
    (D.nan.isFiniteD = false ∧ coerceD D.nan = QE99) ∧
    LDE.eval ldeCexCtx (fun _ => 1/2) (LDE.initSt ldeCexCtx) =
      some (coerceD (ldeCexCtx.func ((List.range ldeCexCtx.dim).map (fun _ => 1/2))),
        { LDE.initSt ldeCexCtx with
          evalCount := (LDE.initSt ldeCexCtx).evalCount + 1
          funcCalls := (LDE.initSt ldeCexCtx).funcCalls + 1
          evalLog := (LDE.initSt ldeCexCtx).evalLog ++
            [(List.range ldeCexCtx.dim).map (fun _ => 1/2)] }) := by
  constructor
  · exact ⟨rfl, fitness_eval_spec.2.1 D.nan rfl⟩
  · exact fitness_eval_spec.1 ldeCexCtx (fun _ => 1/2) (LDE.initSt ldeCexCtx)

theorem lde_mutLoop_frame (C : LDE.Ctx) (ints : Nat → Bool) (nInts toMut : ℚ)
    (fuel : Nat) :
    ∀ l x s x' s', LDE.mutLoop C ints nInts toMut fuel l x s = some (x', s') →
      ∀ i, x' i = x i ∨ (ints i = true ∧ ∃ k : ℤ, x' i = (k : ℚ))
  | [], x => by
    intro s x' s' h i
    simp only [LDE.mutLoop, pureM, Option.some.injEq, Prod.mk.injEq] at h
    rw [← h.1]
    exact Or.inl rfl
  | j :: js, x => by
    intro s x' s' h i
    rw [LDE.mutLoop] at h
    split at h
    case isTrue hj =>
      rcases bindM_eq_some.mp h with ⟨c, s1, h1, h2⟩
      split at h2
      case isTrue =>
        rcases bindM_eq_some.mp h2 with ⟨v, s2, h3, h4⟩
        rcases lde_mutLoop_frame C ints nInts toMut fuel js _ s2 x' s' h4 i with
          hk | hk
        · by_cases hij : i = j
          · right
            refine ⟨by rw [hij]; exact hj, cTrunc v, ?_⟩
            rw [hk, hij]
            simp [upd]
          · left
            rw [hk]
            simp [upd, hij]
        · exact Or.inr hk
      case isFalse =>
        exact lde_mutLoop_frame C ints nInts toMut fuel js x s1 x' s' h2 i
    case isFalse =>
      exact lde_mutLoop_frame C ints nInts toMut fuel js x s x' s' h i

theorem mode_mutLoop_frame (C : MODE.Ctx) (ints : Nat → Bool) (nInts toMut : ℚ) :
    ∀ l x s x' s', MODE.mutLoop C ints nInts toMut l x s = some (x', s') →
      ∀ i, x' i = x i ∨ (ints i = true ∧ ∃ k : ℤ, x' i = (k : ℚ))
  | [], x => by
    intro s x' s' h i
    simp only [ MODE.mutLoop, pureM, Option.some.injEq, Prod.mk.injEq] at h
    rw [← h.1]
    exact Or.inl rfl
  | j :: js, x => by
    intro s x' s' h i
    rw [ MODE.mutLoop] at h
    split at h
    case isTrue hj =>
      rcases bindM_eq_some.mp h with ⟨c, s1, h1, h2⟩
      split at h2
      case isTrue =>
        rcases bindM_eq_some.mp h2 with ⟨v, s2, h3, h4⟩
        rcases mode_mutLoop_frame C ints nInts toMut js _ s2 x' s' h4 i with
          hk | hk
        · by_cases hij : i = j
          · right
            refine ⟨by rw [hij]; exact hj, cTrunc v, ?_⟩
            rw [hk, hij]
            simp [upd]
          · left
            rw [hk]
            simp [upd, hij]
        · exact Or.inr hk
      case isFalse =>
        exact mode_mutLoop_frame C ints nInts toMut js x s1 x' s' h2 i
    case isFalse =>
      exact mode_mutLoop_frame C ints nInts toMut js x s x' s' h i

/-- C2 counterexample: in the concrete LDE run the first vector passed to
the user objective carries 1/2 at the integer-flagged coordinate 0, and
1/2 differs from its rounding: neither engine rounds integer coordinates
before evaluation. -/
theorem integer_purity_cex :
    (∃ ints, ldeCexCtx.isInt = some ints ∧ ints 0 = true) ∧
    (LDE.doOptimize ldeCexCtx 4 2 (LDE.initSt ldeCexCtx)).map
      (fun r => r.2.evalLog.head?) = some (some [1/2]) ∧
    ¬ ((1 : ℚ)/2 = (round ((1 : ℚ)/2) : ℚ)) := by
  refine ⟨⟨fun _ => true, rfl, rfl⟩, by rw [ldeR_run]; rfl, ?_⟩
  have h1 : (round ((1 : ℚ)/2) : ℚ) = 1 := by
    rw [round_eq]
    norm_num
  rw [h1]
  norm_num

/-- C2 (amended): the integer mutation (modify) of either engine leaves
non-flagged coordinates unchanged and either keeps an integer-flagged
coordinate or resamples it to a truncated integer value; vectors passed
to the objective may still be non-integral at integer coordinates, since
no rounding is applied before evaluation. -/
theorem integer_mutation_amended :
    (∀ (C : LDE.Ctx) (fuel : Nat) (x : Nat → ℚ) (s : LDE.St) (x' : Nat → ℚ)
        (s' : LDE.St), LDE.modify C fuel x s = some (x', s') →
      ∀ i, ((∀ ints, C.isInt = some ints → ints i = false) → x' i = x i) ∧
        (x' i = x i ∨ ∃ k : ℤ, x' i = (k : ℚ))) ∧
    (∀ (C : MODE.Ctx) (x : Nat → ℚ) (s : MODE.St) (x' : Nat → ℚ)
        (s' : MODE.St), MODE.modify C x s = some (x', s') →
      ∀ i, ((∀ ints, C.isInt = some ints → ints i = false) → x' i = x i) ∧
        (x' i = x i ∨ ∃ k : ℤ, x' i = (k : ℚ))) := by
  constructor
  · intro C fuel x s x' s' h i
    revert h
    unfold LDE.modify
    cases hints : C.isInt with
    | none =>
      intro h
      simp only [pureM, Option.some.injEq, Prod.mk.injEq] at h
      rw [← h.1]
      exact ⟨fun _ => rfl, Or.inl rfl⟩
    | some ints =>
      intro h
      rcases bindM_eq_some.mp h with ⟨r, s1, h1, h2⟩
      have hf := lde_mutLoop_frame C ints _ _ fuel (List.range C.dim) x s1 x' s' h2 i
      constructor
      · intro hno
        rcases hf with hk | hk
        · exact hk
        · rw [hno ints rfl] at hk
          simp at hk
      · rcases hf with hk | hk
        · exact Or.inl hk
        · exact Or.inr hk.2
  · intro C x s x' s' h i
    revert h
    unfold MODE.modify
    cases hints : C.isInt with
    | none =>
      intro h
      simp only [pureM, Option.some.injEq, Prod.mk.injEq] at h
      rw [← h.1]
      exact ⟨fun _ => rfl, Or.inl rfl⟩
    | some ints =>
      intro h
      rcases bindM_eq_some.mp h with ⟨r, s1, h1, h2⟩
      have hf := mode_mutLoop_frame C ints _ _ (List.range C.dim) x s1 x' s' h2 i
      constructor
      · intro hno
        rcases hf with hk | hk
        · exact hk
        · rw [hno ints rfl] at hk
          simp at hk
      · rcases hf with hk | hk
        · exact Or.inl hk
        · exact Or.inr hk.2

/-- C2 witness: the amended mutation contract applied to a concrete
successful modify run of the LDE engine. -/
theorem integer_mutation_amended_witness :
    ∃ x' s', LDE.modify ldeCexCtx 2 (fun _ => 1/2) (LDE.initSt ldeCexCtx) =
        some (x', s') ∧
      (x' 0 = (fun _ => (1 : ℚ)/2) 0 ∨ ∃ k : ℤ, x' 0 = (k : ℚ)) := by
  have h8 : (LDE.modify ldeCexCtx 2 (fun _ => 1/2) (LDE.initSt ldeCexCtx)).isSome
      = true := by decide
  cases hr : LDE.modify ldeCexCtx 2 (fun _ => 1/2) (LDE.initSt ldeCexCtx) with
  | none => rw [hr] at h8; simp at h8
  | some us =>
    refine ⟨us.1, us.2, rfl, ?_⟩
    exact (integer_mutation_amended.1 ldeCexCtx 2 (fun _ => 1/2)
      (LDE.initSt ldeCexCtx) us.1 us.2 hr 0).2

/-- C8 counterexample: with bounds [0, 1], xmean 0 and a first normal
draw of 5, normX returns the clamped value 1, while the rejection
sampling the claim describes (normXspec) redraws and returns 1/4: normX
enforces bounds by clamping, not by rejection. -/
theorem normX_sampling_cex :
    (LDE.normX ldeNormXCtx (LDE.initSt ldeNormXCtx)).map (fun r => r.1 0) =
      some 1 ∧
    (LDE.normXspec ldeNormXCtx 3 (LDE.initSt ldeNormXCtx)).map (fun r => r.1 0) =
      some (1/4) ∧
    (1 : ℚ) ≠ 1/4 := by
  refine ⟨by decide, by decide, by norm_num⟩

/-- C8 (amended): normXi draws from N(xmean, sigma0) with probability 0.5
and from N(xmean, sigma) otherwise and enforces bound feasibility by
rejection; normX selects the distribution the same way but enforces
bounds by clamping each coordinate (getClosestFeasible); in both cases,
when bounds are present with lower ≤ upper, every returned coordinate is
feasible. -/
theorem normX_feasibility_amended :
    ∀ (C : LDE.Ctx) (lo hi : Nat → ℚ), C.bounds = some (lo, hi) →
      (∀ i, lo i ≤ hi i) →
      (∀ s v s', LDE.normX C s = some (v, s') →
        ∀ i, lo i ≤ v i ∧ v i ≤ hi i) ∧
      (∀ fuel i s v s', LDE.normXi C fuel i s = some (v, s') →
        lo i ≤ v ∧ v ≤ hi i) := by
  intro C lo hi hb hlohi
  constructor
  · exact LDE.normX_result_feasible C lo hi hb hlohi
  · intro fuel i s v s' h
    have hf := LDE.normXi_feasible C fuel i s v s' h
    unfold LDE.feasible at hf
    rw [hb] at hf
    simp only [Bool.and_eq_true, decide_eq_true_eq] at hf
    exact hf

/-- C8 witness: the amended feasibility statement applied to the concrete
bounded context and its concrete normX and normXi runs. -/
theorem normX_feasibility_amended_witness :
    ldeNormXCtx.bounds = some (fun _ => 0, fun _ => 1) ∧
    (∃ v s', LDE.normX ldeNormXCtx (LDE.initSt ldeNormXCtx) = some (v, s') ∧
      (0 : ℚ) ≤ v 0 ∧ v 0 ≤ 1) ∧
    (∃ v s', LDE.normXi ldeNormXCtx 3 0 (LDE.initSt ldeNormXCtx) = some (v, s') ∧
      (0 : ℚ) ≤ v ∧ v ≤ 1) := by
  have hth := normX_feasibility_amended ldeNormXCtx (fun _ => 0) (fun _ => 1)
    rfl (fun i => by norm_num)
  refine ⟨rfl, ?_, ?_⟩
  · have h8 : (LDE.normX ldeNormXCtx (LDE.initSt ldeNormXCtx)).isSome = true := by
      decide
    cases hr : LDE.normX ldeNormXCtx (LDE.initSt ldeNormXCtx) with
    | none => rw [hr] at h8; simp at h8
    | some us =>
      exact ⟨us.1, us.2, rfl,
        hth.1 (LDE.initSt ldeNormXCtx) us.1 us.2 hr 0⟩
  · have h8 : (LDE.normXi ldeNormXCtx 3 0 (LDE.initSt ldeNormXCtx)).isSome
        = true := by decide
    cases hr : LDE.normXi ldeNormXCtx 3 0 (LDE.initSt ldeNormXCtx) with
    | none => rw [hr] at h8; simp at h8
    | some us =>
      exact ⟨us.1, us.2, rfl,
        hth.2 3 0 (LDE.initSt ldeNormXCtx) us.1 us.2 hr⟩

theorem popLocalLoop_fst (xs : Nat → ℚ) (pdim : Nat) :
    ∀ l x, (MODE.popLocalLoop xs pdim l x).1 = xs
  | [], _ => rfl
  | i :: is, x => popLocalLoop_fst xs pdim is _

theorem foldl_fixed {α : Type} (f : α → Nat → α) (hf : ∀ b p, f b p = b) :
    ∀ (l : List Nat) (b : α), l.foldl f b = b
  | [], _ => rfl
  | p :: ps, b => by
    rw [List.foldl_cons, hf b p]
    exact foldl_fixed f hf ps b

/-- C10: populationMODE_C copies the caller buffer into local column
copies that are discarded, so the buffer is returned exactly as it came
in, the engine state is untouched, and the result is the engine stop
flag: the current population is never written out. -/
theorem populationMODE_frame :
    ∀ (C : MODE.Ctx) (xs : Nat → ℚ) (s : MODE.St),
      MODE.populationMODE_C C xs s = some ((s.stop, xs), s) := by
  intro C xs s
  unfold MODE.populationMODE_C
  have hb : (List.range C.popsize).foldl
      (fun buf p =>
        (MODE.popLocalLoop buf (p * C.dim) (List.range C.dim)
          (MODE.colOf s.popX p)).1) xs = xs :=
    foldl_fixed _ (fun b p => popLocalLoop_fst b (p * C.dim) (List.range C.dim) _)
      (List.range C.popsize) xs
  simp only [bindM, getM, pureM, hb]

/-- Concrete constrained MODE context (nobj 1, ncon 1) for the tellMODE
stride bug. -/
def modeConCtx : MODE.Ctx where
  dim := 1
  nobj := 1
  ncon := 1
  func := fun _ => [D.fin 1, D.fin 0]
  logCb := fun _ _ _ => false
  lower := fun _ => 0
  upper := fun _ => 1
  R := fun _ => 0
  powQ := fun _ _ => 0
  sched := fun _ => 0
  popsize := 2
  maxEvaluations := 1
  F0 := 1/2
  CR0 := 9/10
  pro_c := 1
  dis_c := 20
  pro_m := 1
  dis_m := 20
  min_mutate := 1/10
  max_mutate := 1/2
  log_period := 1000
  isInt := none
  nsga_update0 := true
  pareto_update0 := 0

/-- C6 (code bug): tellMODE_C builds its column matrix with
nobj = getNobj() rows and stride nobj through the flat buffer, not the
nobj + ncon rows and stride the interface documents; with ncon = 1 the
value placed in column 1, row 0 comes from ys[1·nobj] = ys[1] instead of
ys[1·(nobj+ncon)] = ys[2], and the matrix handed to tellAll is one row
short of the popY columns it is copied into. -/
theorem tellMODE_stride_bug :
    (MODE.tellMODE_vals modeConCtx (fun n => (n : ℚ))).1 = modeConCtx.nobj ∧
    modeConCtx.nobj ≠ modeConCtx.nobj + modeConCtx.ncon ∧
    (MODE.tellMODE_vals modeConCtx (fun n => (n : ℚ))).2 0 1 =
      (fun n => (n : ℚ)) (1 * modeConCtx.nobj + 0) ∧
    (fun n => (n : ℚ)) (1 * modeConCtx.nobj + 0) ≠
      (fun n => (n : ℚ)) (1 * (modeConCtx.nobj + modeConCtx.ncon) + 0) := by
  refine ⟨rfl, by decide, rfl, by decide⟩

theorem getD_eq_elem {α : Type} (l : List α) (d : α) {m : Nat}
    (h : m < l.length) : l.getD m d = l[m] := by
  rw [List.getD_eq_getElem?_getD, List.getElem?_eq_getElem h]
  rfl

theorem getD_mem {α : Type} (l : List α) (d : α) {m : Nat}
    (h : m < l.length) : l.getD m d ∈ l := by
  rw [getD_eq_elem l d h]
  exact List.getElem_mem h

theorem getD_map_range {α : Type} [Inhabited α] (f : Nat → α) (d : α)
    {t m : Nat} (h : m < t) : ((List.range t).map f).getD m d = f m := by
  have hlen : m < ((List.range t).map f).length := by
    simpa using h
  rw [getD_eq_elem _ d hlen]
  simp

namespace MODE

theorem sort_index_perm (n : Nat) (f : Nat → ℚ) :
    (sort_index n f).Perm (List.range n) :=
  List.perm_insertionSort _ _

theorem sort_index_length (n : Nat) (f : Nat → ℚ) :
    (sort_index n f).length = n := by
  rw [(sort_index_perm n f).length_eq, List.length_range]

theorem sort_index_nodup (n : Nat) (f : Nat → ℚ) :
    (sort_index n f).Nodup :=
  (sort_index_perm n f).nodup_iff.mpr (List.nodup_range n)

theorem sort_index_mem (n : Nat) (f : Nat → ℚ) (i : Nat) :
    i ∈ sort_index n f ↔ i < n := by
  rw [(sort_index_perm n f).mem_iff, List.mem_range]

theorem sort_index_sorted (n : Nat) (f : Nat → ℚ) :
    List.Sorted (fun i j => f i ≤ f j) (sort_index n f) := by
  haveI : IsTotal Nat (fun i j => f i ≤ f j) := ⟨fun a b => le_total (f a) (f b)⟩
  haveI : IsTrans Nat (fun i j => f i ≤ f j) :=
    ⟨fun a b c hab hbc => le_trans hab hbc⟩
  exact List.sorted_insertionSort _ _

theorem scatterGo_frame (vals : Nat → ℚ) :
    ∀ (l : List Nat) (k0 : Nat) (f : Nat → ℚ) (j : Nat), j ∉ l →
      scatterGo vals k0 l f j = f j
  | [], _, _, _, _ => rfl
  | c :: rest, k0, f, j, hj => by
    rw [scatterGo]
    have hjr : j ∉ rest := fun h => hj (List.mem_cons_of_mem c h)
    rw [scatterGo_frame vals rest (k0 + 1) _ j hjr]
    have hjc : j ≠ c := fun h => hj (h ▸ List.mem_cons_self c rest)
    simp [upd, hjc]

theorem scatterGo_getD (vals : Nat → ℚ) :
    ∀ (l : List Nat) (k0 : Nat) (f : Nat → ℚ) (m : Nat), l.Nodup →
      m < l.length → scatterGo vals k0 l f (l.getD m 0) = vals (k0 + m)
  | [], _, _, m, _, hm => by simp at hm
  | c :: rest, k0, f, m, hnd, hm => by
    rw [scatterGo]
    match m with
    | 0 =>
      have hc : (c :: rest).getD 0 0 = c := rfl
      rw [hc]
      have hcr : c ∉ rest := (List.nodup_cons.mp hnd).1
      rw [scatterGo_frame vals rest (k0 + 1) _ c hcr]
      simp [upd]
    | m' + 1 =>
      have hd : (c :: rest).getD (m' + 1) 0 = rest.getD m' 0 := rfl
      rw [hd]
      have hm' : m' < rest.length := by
        simpa using hm
      rw [scatterGo_getD vals rest (k0 + 1) _ m' (List.nodup_cons.mp hnd).2 hm']
      congr 1
      omega

theorem scatter_getD (si : List Nat) (vals : Nat → ℚ) (m : Nat)
    (hnd : si.Nodup) (hm : m < si.length) :
    scatter si vals (si.getD m 0) = vals m := by
  unfold scatter
  have h := scatterGo_getD vals si 0 (fun _ => 0) m hnd hm
  rw [h]
  congr 1
  omega

theorem foldl_max_init (b : ℚ) : ∀ (l : List ℚ), b ≤ l.foldl max b
  | [] => le_refl b
  | x :: xs => le_trans (le_max_left b x) (foldl_max_init (max b x) xs)

theorem foldl_max_mem (a : ℚ) : ∀ (l : List ℚ) (b : ℚ), a ∈ l → a ≤ l.foldl max b
  | [], _, h => by simp at h
  | x :: xs, b, h => by
    rcases List.mem_cons.mp h with rfl | hx
    · exact le_trans (le_max_right b a) (foldl_max_init (max b a) xs)
    · exact foldl_max_mem a xs (max b x) hx

theorem le_maxCoeffL (a : ℚ) (l : List ℚ) (h : a ∈ l) : a ≤ maxCoeffL l := by
  match l, h with
  | x :: xs, h =>
    rcases List.mem_cons.mp h with rfl | hx
    · exact foldl_max_init a xs
    · exact foldl_max_mem a xs x hx

theorem maxCoeffL_zero (l : List ℚ) (h : ∀ a ∈ l, a = 0) : maxCoeffL l = 0 := by
  match l with
  | [] => rfl
  | x :: xs =>
    have hx : x = 0 := h x (List.mem_cons_self x xs)
    have hall : ∀ a ∈ xs, a = 0 := fun a ha => h a (List.mem_cons_of_mem x ha)
    show xs.foldl max x = 0
    have : ∀ (ys : List ℚ) (b : ℚ), b = 0 → (∀ a ∈ ys, a = 0) → ys.foldl max b = 0 := by
      intro ys
      induction ys with
      | nil => intro b hb _; simpa using hb
      | cons z zs ih =>
        intro b hb hz
        have hz0 : z = 0 := hz z (List.mem_cons_self z zs)
        refine ih (max b z) ?_ (fun a ha => hz a (List.mem_cons_of_mem z ha))
        rw [hb, hz0]
        simp
    exact this xs x hx hall

end MODE

namespace MODE

/-- First objective row of a matrix. -/
def y0row (y : Mat) : Nat → ℚ := fun c => y 0 c

/-- Sort permutation of crowd_dist. -/
def siOf (y : Mat) (n : Nat) : List Nat := sort_index n (y0row y)

/-- Neighbour gaps of the sorted first objective. -/
def gapsOf (y : Mat) (n : Nat) : List ℚ :=
  (List.range (n - 1)).map (fun k =>
    y0row y ((siOf y n).getD (k + 1) 0) - y0row y ((siOf y n).getD k 0))

/-- Gap sums before the border overwrite. -/
def dsumOf (y : Mat) (n : Nat) : Nat → ℚ := fun k =>
  (if 0 < k then (gapsOf y n).getD (k - 1) 0 else 0) +
    (if k < n - 1 then (gapsOf y n).getD k 0 else 0)

theorem crowd_dist_eq (y : Mat) (n : Nat) :
    crowd_dist y n =
      if maxCoeffL (gapsOf y n) = 0 then (fun _ => 0)
      else scatter (siOf y n) (upd (upd (dsumOf y n) 0 DBL_MAX) (n - 1) DBL_MAX) :=
  rfl

theorem siOf_length (y : Mat) (n : Nat) : (siOf y n).length = n :=
  sort_index_length n (y0row y)

theorem siOf_getD_lt (y : Mat) (n : Nat) {m : Nat} (hm : m < n) :
    (siOf y n).getD m 0 < n := by
  have hmem : (siOf y n).getD m 0 ∈ siOf y n :=
    getD_mem _ 0 (by rw [siOf_length]; exact hm)
  exact (sort_index_mem n (y0row y) _).mp hmem

theorem y0s_mono (y : Mat) (n : Nat) :
    ∀ k1 k2, k1 ≤ k2 → k2 < n →
      y0row y ((siOf y n).getD k1 0) ≤ y0row y ((siOf y n).getD k2 0) := by
  intro k1 k2 hle hk2
  haveI : IsRefl Nat (fun i j => y0row y i ≤ y0row y j) := ⟨fun a => le_refl _⟩
  have hs := sort_index_sorted n (y0row y)
  have h1 : k1 < (siOf y n).length := by
    rw [siOf_length]; omega
  have h2 : k2 < (siOf y n).length := by
    rw [siOf_length]; exact hk2
  have := hs.rel_get_of_le (a := ⟨k1, h1⟩) (b := ⟨k2, h2⟩) hle
  rw [getD_eq_elem _ 0 h1, getD_eq_elem _ 0 h2]
  exact this

theorem mem_siOf_getD (y : Mat) (n : Nat) {c : Nat} (hc : c < n) :
    ∃ m, m < n ∧ (siOf y n).getD m 0 = c := by
  have hmem : c ∈ siOf y n := (sort_index_mem n (y0row y) c).mpr hc
  rcases List.mem_iff_get.mp hmem with ⟨⟨m, hm⟩, he⟩
  refine ⟨m, by rw [← siOf_length y n]; exact hm, ?_⟩
  rw [getD_eq_elem _ 0 hm]
  simpa [List.get_eq_getElem] using he

theorem gapsOf_getD (y : Mat) (n : Nat) {k : Nat} (hk : k < n - 1) :
    (gapsOf y n).getD k 0 =
      y0row y ((siOf y n).getD (k + 1) 0) - y0row y ((siOf y n).getD k 0) :=
  getD_map_range _ 0 hk

theorem gapsOf_nonneg (y : Mat) (n : Nat) {k : Nat} (hk : k < n - 1) :
    0 ≤ (gapsOf y n).getD k 0 := by
  rw [gapsOf_getD y n hk]
  have := y0s_mono y n k (k + 1) (by omega) (by omega)
  linarith

theorem gapsOf_length (y : Mat) (n : Nat) : (gapsOf y n).length = n - 1 := by
  unfold gapsOf
  simp

theorem y0s_const_of_max_zero (y : Mat) (n : Nat)
    (h : maxCoeffL (gapsOf y n) = 0) :
    ∀ j, j < n → y0row y ((siOf y n).getD j 0) = y0row y ((siOf y n).getD 0 0) := by
  have hgap : ∀ k, k < n - 1 → (gapsOf y n).getD k 0 = 0 := by
    intro k hk
    have hmem : (gapsOf y n).getD k 0 ∈ gapsOf y n :=
      getD_mem _ 0 (by rw [gapsOf_length]; exact hk)
    have hle := le_maxCoeffL _ _ hmem
    have hge := gapsOf_nonneg y n hk
    rw [h] at hle
    linarith
  intro j
  induction j with
  | zero => intro _; rfl
  | succ j ih =>
    intro hj
    have hj' : j < n - 1 := by omega
    have := hgap j hj'
    rw [gapsOf_getD y n hj'] at this
    have hji : y0row y ((siOf y n).getD (j + 1) 0) =
        y0row y ((siOf y n).getD j 0) := by linarith
    rw [hji]
    exact ih (by omega)

end MODE

/-- Objective matrix with a tied minimum used against C7: row 0 is
[0, 0, 1]. -/
def c7Y : MODE.Mat := fun r c => if r = 0 then (if c = 2 then 1 else 0) else 0

/-- C7 counterexample: column 1 of c7Y holds the minimal first-objective
value 0, yet its crowding distance is 1, not DBL_MAX: with ties only the
column placed first in the sort gets the infinite distance. -/
theorem crowd_dist_tie_cex :
    MODE.crowd_dist c7Y 3 1 = 1 ∧
    c7Y 0 1 = 0 ∧ (∀ c, c < 3 → c7Y 0 1 ≤ c7Y 0 c) ∧
    (1 : ℚ) ≠ DBL_MAX := by
  refine ⟨by decide, rfl, ?_, by decide⟩
  intro c hc
  interval_cases c <;> norm_num [c7Y]

/-- C7 (amended): for n ≥ 2 columns crowd_dist returns all zeros when the
first objective row is constant; otherwise the first and the last column
of the ascending stable sort by the first objective receive DBL_MAX
(these hold a minimal, resp. maximal, first-objective value, though tied
extremal columns elsewhere in the sort do not), and every interior sort
position receives the sum of the gaps to its sort neighbours. -/
theorem crowd_dist_amended :
    ∀ (y : MODE.Mat) (n : Nat), 2 ≤ n →
      ((∀ c1 c2, c1 < n → c2 < n → y 0 c1 = y 0 c2) →
        ∀ c, MODE.crowd_dist y n c = 0) ∧
      ((∃ c1 c2, c1 < n ∧ c2 < n ∧ y 0 c1 ≠ y 0 c2) →
        (MODE.crowd_dist y n ((MODE.siOf y n).getD 0 0) = DBL_MAX ∧
          MODE.crowd_dist y n ((MODE.siOf y n).getD (n - 1) 0) = DBL_MAX) ∧
        (∀ c, c < n →
          y 0 ((MODE.siOf y n).getD 0 0) ≤ y 0 c ∧
          y 0 c ≤ y 0 ((MODE.siOf y n).getD (n - 1) 0)) ∧
        (∀ k, 0 < k → k < n - 1 →
          MODE.crowd_dist y n ((MODE.siOf y n).getD k 0) =
            (y 0 ((MODE.siOf y n).getD k 0) -
              y 0 ((MODE.siOf y n).getD (k - 1) 0)) +
            (y 0 ((MODE.siOf y n).getD (k + 1) 0) -
              y 0 ((MODE.siOf y n).getD k 0)))) := by
  intro y n hn
  constructor
  · intro hconst c
    rw [ MODE.crowd_dist_eq]
    have hz : MODE.maxCoeffL (MODE.gapsOf y n) = 0 := by
      apply MODE.maxCoeffL_zero
      intro a ha
      rcases List.mem_map.mp ha with ⟨k, hk, he⟩
      rw [List.mem_range] at hk
      have h1 : (MODE.siOf y n).getD (k + 1) 0 < n := MODE.siOf_getD_lt y n (by omega)
      have h2 : (MODE.siOf y n).getD k 0 < n := MODE.siOf_getD_lt y n (by omega)
      rw [← he]
      have := hconst _ _ h1 h2
      unfold MODE.y0row
      rw [this]
      ring
    rw [if_pos hz]
  · intro hne
    have hnz : ¬ MODE.maxCoeffL (MODE.gapsOf y n) = 0 := by
      intro hz
      rcases hne with ⟨c1, c2, hc1, hc2, hneq⟩
      rcases MODE.mem_siOf_getD y n hc1 with ⟨m1, hm1, he1⟩
      rcases MODE.mem_siOf_getD y n hc2 with ⟨m2, hm2, he2⟩
      have k1 := MODE.y0s_const_of_max_zero y n hz m1 hm1
      have k2 := MODE.y0s_const_of_max_zero y n hz m2 hm2
      rw [he1] at k1
      rw [he2] at k2
      exact hneq (by rw [show y 0 c1 = MODE.y0row y c1 from rfl,
        show y 0 c2 = MODE.y0row y c2 from rfl, k1, k2])
    have hval : ∀ k, k < n →
        MODE.crowd_dist y n ((MODE.siOf y n).getD k 0) =
          upd (upd (MODE.dsumOf y n) 0 DBL_MAX) (n - 1) DBL_MAX k := by
      intro k hk
      rw [ MODE.crowd_dist_eq, if_neg hnz]
      exact MODE.scatter_getD _ _ k (MODE.sort_index_nodup n _)
        (by rw [ MODE.siOf_length]; exact hk)
    refine ⟨⟨?_, ?_⟩, ?_, ?_⟩
    · rw [hval 0 (by omega)]
      unfold upd
      have h01 : ¬ (0 = n - 1) := by omega
      simp [h01]
    · rw [hval (n - 1) (by omega)]
      unfold upd
      simp
    · intro c hc
      rcases MODE.mem_siOf_getD y n hc with ⟨m, hm, he⟩
      constructor
      · have := MODE.y0s_mono y n 0 m (by omega) hm
        rw [he] at this
        exact this
      · have := MODE.y0s_mono y n m (n - 1) (by omega) (by omega)
        rw [he] at this
        exact this
    · intro k hk0 hk1
      rw [hval k (by omega)]
      unfold upd
      have hk2 : ¬ (k = n - 1) := by omega
      have hk3 : ¬ (k = 0) := by omega
      simp only [hk2, hk3, if_false]
      unfold MODE.dsumOf
      rw [if_pos hk0, if_pos hk1]
      rw [ MODE.gapsOf_getD y n (by omega : k - 1 < n - 1),
        MODE.gapsOf_getD y n hk1]
      have hkk : k - 1 + 1 = k := by omega
      rw [hkk]
      unfold MODE.y0row
      ring
/-- C7 witness: the amended crowding statement at the concrete tied
matrix c7Y. -/
theorem crowd_dist_amended_witness :
    (2 ≤ 3 ∧ (∃ c1 c2, c1 < 3 ∧ c2 < 3 ∧ c7Y 0 c1 ≠ c7Y 0 c2)) ∧
    (MODE.crowd_dist c7Y 3 ((MODE.siOf c7Y 3).getD 0 0) = DBL_MAX ∧
      MODE.crowd_dist c7Y 3 ((MODE.siOf c7Y 3).getD 2 0) = DBL_MAX) := by
  have hne : ∃ c1 c2, c1 < 3 ∧ c2 < 3 ∧ c7Y 0 c1 ≠ c7Y 0 c2 := by
    refine ⟨0, 2, by omega, by omega, ?_⟩
    norm_num [c7Y]
  refine ⟨⟨by omega, hne⟩, ?_⟩
  have h := ((crowd_dist_amended c7Y 3 (by omega)).2 hne).1
  exact h

theorem exists_getD_of_mem {α : Type} (l : List α) (a d : α) (h : a ∈ l) :
    ∃ m, m < l.length ∧ l.getD m d = a := by
  rcases List.mem_iff_get.mp h with ⟨⟨m, hm⟩, he⟩
  refine ⟨m, hm, ?_⟩
  rw [getD_eq_elem l d hm]
  simpa [List.get_eq_getElem] using he

namespace MODE

theorem addListGo_frame (vals : Nat → ℚ) :
    ∀ (l : List Nat) (k0 : Nat) (f : Nat → ℚ) (j : Nat), j ∉ l →
      addListGo vals k0 l f j = f j
  | [], _, _, _, _ => rfl
  | c :: rest, k0, f, j, hj => by
    rw [addListGo]
    have hjr : j ∉ rest := fun h => hj (List.mem_cons_of_mem c h)
    rw [addListGo_frame vals rest (k0 + 1) _ j hjr]
    have hjc : j ≠ c := fun h => hj (h ▸ List.mem_cons_self c rest)
    simp [hjc]

theorem addListGo_getD (vals : Nat → ℚ) :
    ∀ (l : List Nat) (k0 : Nat) (f : Nat → ℚ) (m : Nat), l.Nodup →
      m < l.length →
      addListGo vals k0 l f (l.getD m 0) = f (l.getD m 0) + vals (k0 + m)
  | [], _, _, m, _, hm => by simp at hm
  | c :: rest, k0, f, m, hnd, hm => by
    rw [addListGo]
    match m with
    | 0 =>
      have hc : (c :: rest).getD 0 0 = c := rfl
      rw [hc]
      have hcr : c ∉ rest := (List.nodup_cons.mp hnd).1
      rw [addListGo_frame vals rest (k0 + 1) _ c hcr]
      simp
    | m' + 1 =>
      have hd : (c :: rest).getD (m' + 1) 0 = rest.getD m' 0 := rfl
      rw [hd]
      have hm' : m' < rest.length := by simpa using hm
      rw [addListGo_getD vals rest (k0 + 1) _ m' (List.nodup_cons.mp hnd).2 hm']
      have hne : rest.getD m' 0 ≠ c := by
        intro he
        exact (List.nodup_cons.mp hnd).1 (he ▸ getD_mem rest 0 hm')
      simp only [hne, if_false]
      congr 2
      omega

theorem addList_frame (f : Nat → ℚ) (l : List Nat) (vals : Nat → ℚ) (j : Nat)
    (hj : j ∉ l) : addList f l vals j = f j :=
  addListGo_frame vals l 0 f j hj

theorem addList_getD (f : Nat → ℚ) (l : List Nat) (vals : Nat → ℚ) (m : Nat)
    (hnd : l.Nodup) (hm : m < l.length) :
    addList f l vals (l.getD m 0) = f (l.getD m 0) + vals m := by
  unfold addList
  rw [addListGo_getD vals l 0 f m hnd hm, Nat.zero_add]

theorem addListGo_nonneg (vals : Nat → ℚ) (hv : ∀ k, 0 ≤ vals k) :
    ∀ (l : List Nat) (k0 : Nat) (f : Nat → ℚ), (∀ i, 0 ≤ f i) →
      ∀ i, 0 ≤ addListGo vals k0 l f i
  | [], _, _, hf, i => hf i
  | c :: rest, k0, f, hf, i => by
    rw [addListGo]
    refine addListGo_nonneg vals hv rest (k0 + 1) _ ?_ i
    intro m
    by_cases hmc : m = c
    · subst hmc
      rw [if_pos rfl]
      have := hf m
      have := hv k0
      linarith
    · simp only [hmc, if_false]
      exact hf m

theorem plLoop_nonneg (y : Mat) (rows n : Nat) :
    ∀ fuel mask dom index, (∀ i, 0 ≤ dom i) →
      ∀ i, 0 ≤ plLoop y rows n fuel mask dom index i
  | 0, _, _, _, hd, i => hd i
  | fuel + 1, mask, dom, index, hd, i => by
    rw [plLoop]
    split
    · refine plLoop_nonneg y rows n fuel _ _ _ ?_ i
      intro m
      split
      · have := hd m
        linarith
      · exact hd m
    · exact hd i

theorem pareto_levels_nonneg (y : Mat) (rows n : Nat) (i : Nat) :
    0 ≤ pareto_levels y rows n i :=
  plLoop_nonneg y rows n (n + 1) _ _ 0 (fun _ => le_refl 0) i

end MODE

/-- C3: with ncon > 0, whenever at least one column is feasible, pareto
gives every feasible column (all constraint entries at most 0) a strictly
higher domination score than every infeasible column: the feasible get
the flat bonus maxcdom + 1 plus a nonnegative front level, while the
infeasible get at most maxcdom. -/
theorem pareto_feasible_priority :
    ∀ (C : MODE.Ctx) (ys : MODE.Mat) (n : Nat), 0 < C.ncon →
      ∀ i j, i < n → j < n →
        (∀ r, r < C.ncon → ys (C.nobj + r) i ≤ 0) →
        (∃ r, r < C.ncon ∧ 0 < ys (C.nobj + r) j) →
        MODE.pareto C ys n j < MODE.pareto C ys n i := by
  intro C ys n hncon i j hi hj hfeas hinf
  have hfi : MODE.feasibleB C ys i = true := by
    unfold MODE.feasibleB
    rw [List.all_eq_true]
    intro r hr
    rw [List.mem_range] at hr
    exact decide_eq_true (hfeas r hr)
  have hfj : MODE.feasibleB C ys j = false := by
    rcases hinf with ⟨r, hr, hpos⟩
    unfold MODE.feasibleB
    rw [Bool.eq_false_iff]
    intro hall
    rw [List.all_eq_true] at hall
    have := hall r (List.mem_range.mpr hr)
    rw [decide_eq_true_eq] at this
    unfold MODE.yconOf at this
    linarith
  have hhas : MODE.hasFeasible C ys n = true := by
    unfold MODE.hasFeasible
    rw [List.any_eq_true]
    exact ⟨i, List.mem_range.mpr hi, hfi⟩
  have hicy : i ∈ MODE.cyOf C ys n :=
    List.mem_filter.mpr ⟨List.mem_range.mpr hi, hfi⟩
  have hjcy : j ∉ MODE.cyOf C ys n := by
    intro h
    have := (List.mem_filter.mp h).2
    rw [hfj] at this
    simp at this
  have hjciv : j ∈ MODE.civOf C ys n := by
    refine List.mem_filter.mpr ⟨?_, ?_⟩
    · exact (MODE.sort_index_mem n _ j).mpr hj
    · rw [hfj]
      rfl
  have hiciv : i ∉ MODE.civOf C ys n := by
    intro h
    have := (List.mem_filter.mp h).2
    rw [hfi] at this
    simp at this
  have hcivnd : (MODE.civOf C ys n).Nodup :=
    (MODE.sort_index_nodup n _).filter _
  have hcynd : (MODE.cyOf C ys n).Nodup := (List.nodup_range _).filter _
  have hd1j : MODE.dom1Of C ys n j = 0 := by
    unfold MODE.dom1Of
    rw [if_pos hhas]
    rw [ MODE.addList_frame _ _ _ j hjcy]
  have hd1i : 0 ≤ MODE.dom1Of C ys n i := by
    unfold MODE.dom1Of
    rw [if_pos hhas]
    exact MODE.addListGo_nonneg _
      (fun k => MODE.pareto_levels_nonneg _ C.nobj _ k) _ 0 _
      (fun _ => le_refl 0) i
  have hcivpos : 0 < (MODE.civOf C ys n).length := List.length_pos_of_mem hjciv
  have hcypos : 0 < (MODE.cyOf C ys n).length := List.length_pos_of_mem hicy
  unfold MODE.pareto
  rw [if_neg (by omega : ¬ C.ncon = 0), if_pos hcivpos, if_pos hcypos]
  obtain ⟨mj, hmj, hgetj⟩ := exists_getD_of_mem _ j 0 hjciv
  obtain ⟨mi, hmi, hgeti⟩ := exists_getD_of_mem _ i 0 hicy
  have hvj : MODE.addList
      (MODE.addList (MODE.dom1Of C ys n) (MODE.civOf C ys n)
        (fun k => ((MODE.civOf C ys n).length : ℚ) - (k : ℚ)))
      (MODE.cyOf C ys n) (fun _ => ((MODE.civOf C ys n).length : ℚ) + 1) j =
      ((MODE.civOf C ys n).length : ℚ) - (mj : ℚ) := by
    rw [ MODE.addList_frame _ _ _ j hjcy, ← hgetj,
      MODE.addList_getD _ _ _ mj hcivnd hmj, hgetj, hd1j]
    ring
  have hvi : MODE.addList
      (MODE.addList (MODE.dom1Of C ys n) (MODE.civOf C ys n)
        (fun k => ((MODE.civOf C ys n).length : ℚ) - (k : ℚ)))
      (MODE.cyOf C ys n) (fun _ => ((MODE.civOf C ys n).length : ℚ) + 1) i =
      MODE.dom1Of C ys n i + (((MODE.civOf C ys n).length : ℚ) + 1) := by
    rw [← hgeti, MODE.addList_getD _ _ _ mi hcynd hmi, hgeti,
      MODE.addList_frame _ _ _ i hiciv]
  rw [hvj, hvi]
  have hmjq : (0 : ℚ) ≤ (mj : ℚ) := Nat.cast_nonneg mj
  linarith

/-- C3 witness: the feasibility-priority statement at the concrete
constrained context (nobj 1, ncon 1) with one feasible and one infeasible
column. -/
theorem pareto_feasible_priority_witness :
    (0 < modeConCtx.ncon ∧ (0 : Nat) < 2 ∧ (1 : Nat) < 2 ∧
      (∀ r, r < modeConCtx.ncon →
        (fun r c => if c = 0 then (if r = 1 then (-1 : ℚ) else 0)
          else (if r = 1 then 1 else 5)) (modeConCtx.nobj + r) 0 ≤ 0) ∧
      (∃ r, r < modeConCtx.ncon ∧ (0 : ℚ) <
        (fun r c => if c = 0 then (if r = 1 then (-1 : ℚ) else 0)
          else (if r = 1 then 1 else 5)) (modeConCtx.nobj + r) 1)) ∧
    MODE.pareto modeConCtx
      (fun r c => if c = 0 then (if r = 1 then (-1 : ℚ) else 0)
        else (if r = 1 then 1 else 5)) 2 1 <
    MODE.pareto modeConCtx
      (fun r c => if c = 0 then (if r = 1 then (-1 : ℚ) else 0)
        else (if r = 1 then 1 else 5)) 2 0 := by
  have h1 : ∀ r, r < modeConCtx.ncon →
      (fun r c => if c = 0 then (if r = 1 then (-1 : ℚ) else 0)
        else (if r = 1 then 1 else 5)) (modeConCtx.nobj + r) 0 ≤ 0 := by
    intro r hr
    have hr1 : r < 1 := hr
    interval_cases r
    decide
  have h2 : ∃ r, r < modeConCtx.ncon ∧ (0 : ℚ) <
      (fun r c => if c = 0 then (if r = 1 then (-1 : ℚ) else 0)
        else (if r = 1 then 1 else 5)) (modeConCtx.nobj + r) 1 := by
    refine ⟨0, by decide, by decide⟩
  refine ⟨⟨by decide, by omega, by omega, h1, h2⟩, ?_⟩
  exact pareto_feasible_priority modeConCtx _ 2 (by decide) 0 1 (by omega)
    (by omega) h1 h2

namespace MODE

variable (C : Ctx)

/-- Ready pending slots in slot order. -/
def readyListOf (t : St) : List Nat :=
  (List.range (2 * C.popsize)).filter (fun d => t.vdone d)

theorem flushGo_spec (twoN : Nat) :
    ∀ (l : List Nat) (p : Nat) (t : St), l.Nodup →
      p + (l.filter (fun d => t.vdone d)).length ≤ twoN →
      ((∀ k, k < (l.filter (fun d => t.vdone d)).length → ∀ r,
          (flushGo twoN l p t).popY r (p + k) =
            t.nY r ((l.filter (fun d => t.vdone d)).getD k 0) ∧
          (flushGo twoN l p t).popX r (p + k) =
            t.nX r ((l.filter (fun d => t.vdone d)).getD k 0)) ∧
       (∀ c, c < p → ∀ r,
          (flushGo twoN l p t).popY r c = t.popY r c ∧
          (flushGo twoN l p t).popX r c = t.popX r c) ∧
       (∀ d, d ∈ l → (flushGo twoN l p t).vdone d = false) ∧
       (∀ d, d ∉ l → (flushGo twoN l p t).vdone d = t.vdone d) ∧
       (flushGo twoN l p t).nX = t.nX ∧
       (flushGo twoN l p t).nY = t.nY ∧
       (flushGo twoN l p t).n_evals = t.n_evals ∧
       (flushGo twoN l p t).stop = t.stop)
  | [], p, t, _, _ => by
    refine ⟨?_, ?_, ?_, ?_, rfl, rfl, rfl, rfl⟩
    · intro k hk
      simp at hk
    · intro c _ r
      exact ⟨rfl, rfl⟩
    · intro d hd
      simp at hd
    · intro d _
      rfl
  | dp :: rest, p, t, hnd, hlen => by
    rw [flushGo]
    rcases List.nodup_cons.mp hnd with ⟨hdpr, hndr⟩
    by_cases hv : t.vdone dp = true
    · have hfc : (dp :: rest).filter (fun d => t.vdone d) =
          dp :: rest.filter (fun d => t.vdone d) := by
        rw [List.filter_cons_of_pos hv]
      rw [hfc] at hlen
      simp only [List.length_cons] at hlen
      have hplt : ¬ (twoN ≤ p) := by omega
      rw [if_pos hv, if_neg hplt]
      have ht1 : ∀ d, d ∈ rest →
          (if d = dp then false else t.vdone d) = t.vdone d := by
        intro d hd
        have : d ≠ dp := fun he => hdpr (he ▸ hd)
        simp [this]
      have hfeq : rest.filter (fun d =>
            (if d = dp then false else t.vdone d)) =
          rest.filter (fun d => t.vdone d) :=
        List.filter_congr (fun d hd => by rw [ht1 d hd])
      have ih := flushGo_spec twoN rest (p + 1)
        { t with
          popX := updCol t.popX p (colOf t.nX dp)
          popY := updCol t.popY p (colOf t.nY dp)
          vdone := fun d => if d = dp then false else t.vdone d }
        hndr (by rw [hfeq]; omega)
      rw [hfeq] at ih
      rcases ih with ⟨ih1, ih2, ih3, ih4, ih5, ih6, ih7, ih8⟩
      refine ⟨?_, ?_, ?_, ?_, ih5, ih6, ih7, ih8⟩
      · intro k hk r
        rw [hfc]
        match k with
        | 0 =>
          have hc0 : (dp :: rest.filter (fun d => t.vdone d)).getD 0 0 = dp := rfl
          rw [hc0]
          have hp0 : p + 0 = p := rfl
          rw [hp0]
          have hfr := ih2 p (by omega) r
          rcases hfr with ⟨hfrY, hfrX⟩
          constructor
          · rw [hfrY]
            simp [updCol, colOf]
          · rw [hfrX]
            simp [updCol, colOf]
        | k' + 1 =>
          have hc1 : (dp :: rest.filter (fun d => t.vdone d)).getD (k' + 1) 0 =
              (rest.filter (fun d => t.vdone d)).getD k' 0 := rfl
          rw [hc1]
          rw [hfc] at hk
          simp only [List.length_cons] at hk
          have hk' : k' < (rest.filter (fun d => t.vdone d)).length := by omega
          have := ih1 k' hk' r
          have hpe : p + (k' + 1) = (p + 1) + k' := by omega
          rw [hpe]
          exact this
      · intro c hc r
        have := ih2 c (by omega) r
        rcases this with ⟨hY, hX⟩
        have hcp : ¬ (c = p) := by omega
        constructor
        · rw [hY]
          simp [updCol, hcp]
        · rw [hX]
          simp [updCol, hcp]
      · intro d hd
        rcases List.mem_cons.mp hd with rfl | hdr
        · have := ih4 d hdpr
          rw [this]
          simp
        · exact ih3 d hdr
      · intro d hd
        have hdr : d ∉ rest := fun h => hd (List.mem_cons_of_mem dp h)
        have hddp : d ≠ dp := fun he => hd (he ▸ List.mem_cons_self dp rest)
        have := ih4 d hdr
        rw [this]
        simp [hddp]
    · have hvf : t.vdone dp = false := by
        cases hq : t.vdone dp with
        | false => rfl
        | true => exact absurd hq hv
      have hfc : (dp :: rest).filter (fun d => t.vdone d) =
          rest.filter (fun d => t.vdone d) := by
        rw [List.filter_cons_of_neg (by rw [hvf]; simp)]
      rw [hfc] at hlen
      rw [if_neg hv]
      have ih := flushGo_spec twoN rest p t hndr hlen
      rcases ih with ⟨ih1, ih2, ih3, ih4, ih5, ih6, ih7, ih8⟩
      refine ⟨?_, ih2, ?_, ?_, ih5, ih6, ih7, ih8⟩
      · intro k hk r
        rw [hfc]
        rw [hfc] at hk
        exact ih1 k hk r
      · intro d hd
        rcases List.mem_cons.mp hd with rfl | hdr
        · by_cases hdpin : d ∈ rest
          · exact ih3 d hdpin
          · rw [ih4 d hdpin]
            exact hvf
        · exact ih3 d hdr
      · intro d hd
        have hdr : d ∉ rest := fun h => hd (List.mem_cons_of_mem dp h)
        exact ih4 d hdr

end MODE


namespace MODE

theorem is_dominated_vec_iff (y : Nat → ℚ) (rows : Nat) (Y : Mat) (p : Nat) :
    is_dominated_vec y rows Y p = true ↔ ∀ j, j < rows → ¬ (y j < Y j p) := by
  unfold is_dominated_vec
  rw [List.all_eq_true]
  constructor
  · intro h j hj
    have := h j (List.mem_range.mpr hj)
    simpa using this
  · intro h j hj
    rw [List.mem_range] at hj
    simpa using h j hj

theorem flushPending_spec (C : Ctx) (t : St)
    (hrc : readyCount C t = C.popsize) :
    (∀ k, k < C.popsize → ∀ r,
      (flushPending C t).popY r (C.popsize + k) =
          t.nY r ((readyListOf C t).getD k 0) ∧
      (flushPending C t).popX r (C.popsize + k) =
          t.nX r ((readyListOf C t).getD k 0)) ∧
    (∀ d, d < 2 * C.popsize → (flushPending C t).vdone d = false) := by
  have hlen : C.popsize +
      ((List.range (2 * C.popsize)).filter (fun d => t.vdone d)).length ≤
      2 * C.popsize := by
    have : ((List.range (2 * C.popsize)).filter (fun d => t.vdone d)).length =
        C.popsize := hrc
    omega
  have hs := flushGo_spec (2 * C.popsize) (List.range (2 * C.popsize))
    C.popsize t (List.nodup_range _) hlen
  rcases hs with ⟨h1, _, h3, _, _, _, _, _⟩
  constructor
  · intro k hk r
    have hk' : k < ((List.range (2 * C.popsize)).filter
        (fun d => t.vdone d)).length := by
      have h2 : ((List.range (2 * C.popsize)).filter
          (fun d => t.vdone d)).length = C.popsize := hrc
      rw [h2]
      exact hk
    exact h1 k hk' r
  · intro d hd
    exact h3 d (List.mem_range.mpr hd)

end MODE

/-- C5: a tell result whose fitness has no component strictly below the
parent slot column is dropped with the state unchanged; an improving
result is stored in the first free pending slot and marked ready
(tellStore); and when the ready count reaches popsize, all pending
results are flushed in slot order into the offspring columns
[popsize, 2·popsize), every ready mark is cleared, and pop_update is
invoked before n_evals is bumped. -/
theorem mode_tell_spec :
    ∀ (C : MODE.Ctx) (y x : Nat → ℚ) (p : Nat) (s : MODE.St),
      ((∀ j, j < C.nobj + C.ncon → ¬ (y j < s.popY j p)) →
        MODE.tell C y x p s = some (s.stop, s)) ∧
      ((∃ j, j < C.nobj + C.ncon ∧ y j < s.popY j p) →
        (MODE.readyCount C (MODE.tellStore C y x s s) < C.popsize →
          MODE.tell C y x p s = some (s.stop,
            { MODE.tellStore C y x s s with n_evals := s.n_evals + 1 })) ∧
        (MODE.readyCount C (MODE.tellStore C y x s s) = C.popsize →
          MODE.tell C y x p s =
            (bindM (MODE.pop_update C) (fun _ =>
              bindM (setM (fun t => { t with n_evals := t.n_evals + 1 }))
                (fun _ => bindM getM (fun s2 => pureM s2.stop))))
              (MODE.flushPending C (MODE.tellStore C y x s s)) ∧
          (∀ k, k < C.popsize → ∀ r,
            (MODE.flushPending C (MODE.tellStore C y x s s)).popY r
                (C.popsize + k) =
              (MODE.tellStore C y x s s).nY r
                ((MODE.readyListOf C (MODE.tellStore C y x s s)).getD k 0) ∧
            (MODE.flushPending C (MODE.tellStore C y x s s)).popX r
                (C.popsize + k) =
              (MODE.tellStore C y x s s).nX r
                ((MODE.readyListOf C (MODE.tellStore C y x s s)).getD k 0)) ∧
          (∀ d, d < 2 * C.popsize →
            (MODE.flushPending C (MODE.tellStore C y x s s)).vdone d = false))) := by
  intro C y x p s
  constructor
  · intro hdom
    have hd : MODE.is_dominated_vec y (C.nobj + C.ncon) s.popY p = true :=
      (MODE.is_dominated_vec_iff y (C.nobj + C.ncon) s.popY p).mpr hdom
    unfold MODE.tell
    rw [bindM_getM_run]
    try simp only []
    rw [if_pos hd]
    rfl
  · intro hadm
    have hdomf : ¬ (MODE.is_dominated_vec y (C.nobj + C.ncon) s.popY p = true) := by
      intro hd
      rcases hadm with ⟨j, hj, hlt⟩
      exact ((MODE.is_dominated_vec_iff y (C.nobj + C.ncon) s.popY p).mp hd) j hj hlt
    constructor
    · intro hcnt
      unfold MODE.tell
      rw [bindM_getM_run]
      try simp only []
      rw [if_neg hdomf]
      rw [bindM_setM_run]
      try simp only []
      rw [bindM_getM_run]
      try simp only []
      rw [if_neg (not_le.mpr hcnt)]
      rfl
    · intro hcnt
      refine ⟨?_, (MODE.flushPending_spec C _ hcnt).1,
        (MODE.flushPending_spec C _ hcnt).2⟩
      unfold MODE.tell
      rw [bindM_getM_run]
      try simp only []
      rw [if_neg hdomf]
      rw [bindM_setM_run]
      try simp only []
      rw [bindM_getM_run]
      try simp only []
      rw [if_pos (le_of_eq hcnt.symm)]
      rfl

/-- Single-ready-slot variant of the witness state. -/
def tellWitSt : MODE.St := { modeParSt with vdone := fun d => decide (d = 0) }

/-- C5 witness: the three branches of the tell contract exercised on
concrete states: a dominated result is dropped, an improving one is
stored, and a popsize-th ready slot triggers the flush. -/
theorem mode_tell_spec_witness :
    ((∀ j, j < modeParCtx.nobj + modeParCtx.ncon →
        ¬ ((fun _ => DBL_MAX) j < modeParSt.popY j 0)) ∧
      MODE.tell modeParCtx (fun _ => DBL_MAX) (fun _ => 0) 0 modeParSt =
        some (modeParSt.stop, modeParSt)) ∧
    ((∃ j, j < modeParCtx.nobj + modeParCtx.ncon ∧
        (fun _ => (1 : ℚ)) j < modeParSt.popY j 0) ∧
      MODE.readyCount modeParCtx
          (MODE.tellStore modeParCtx (fun _ => 1) (fun _ => 0) modeParSt modeParSt)
        < modeParCtx.popsize ∧
      MODE.tell modeParCtx (fun _ => 1) (fun _ => 0) 0 modeParSt =
        some (modeParSt.stop,
          { MODE.tellStore modeParCtx (fun _ => 1) (fun _ => 0) modeParSt modeParSt
              with n_evals := modeParSt.n_evals + 1 })) ∧
    (MODE.readyCount modeParCtx
        (MODE.tellStore modeParCtx (fun _ => 1) (fun _ => 0) tellWitSt tellWitSt) =
      modeParCtx.popsize ∧
      (∀ d, d < 2 * modeParCtx.popsize →
        (MODE.flushPending modeParCtx
          (MODE.tellStore modeParCtx (fun _ => 1) (fun _ => 0) tellWitSt
            tellWitSt)).vdone d = false)) := by
  have hdom : ∀ j, j < modeParCtx.nobj + modeParCtx.ncon →
      ¬ ((fun _ => DBL_MAX) j < modeParSt.popY j 0) := by decide
  have hadm : ∃ j, j < modeParCtx.nobj + modeParCtx.ncon ∧
      (fun _ => (1 : ℚ)) j < modeParSt.popY j 0 := by
    refine ⟨0, by decide, by decide⟩
  have hcnt : MODE.readyCount modeParCtx
      (MODE.tellStore modeParCtx (fun _ => 1) (fun _ => 0) modeParSt modeParSt)
      < modeParCtx.popsize := by decide
  have hful : MODE.readyCount modeParCtx
      (MODE.tellStore modeParCtx (fun _ => 1) (fun _ => 0) tellWitSt tellWitSt) =
      modeParCtx.popsize := by decide
  have hadm2 : ∃ j, j < modeParCtx.nobj + modeParCtx.ncon ∧
      (fun _ => (1 : ℚ)) j < tellWitSt.popY j 0 := by
    refine ⟨0, by decide, by decide⟩
  refine ⟨⟨hdom, (mode_tell_spec modeParCtx (fun _ => DBL_MAX) (fun _ => 0) 0
      modeParSt).1 hdom⟩, ⟨hadm, hcnt, ((mode_tell_spec modeParCtx (fun _ => 1)
      (fun _ => 0) 0 modeParSt).2 hadm).1 hcnt⟩, hful, ?_⟩
  exact (((mode_tell_spec modeParCtx (fun _ => 1) (fun _ => 0) 0
    tellWitSt).2 hadm2).2 hful).2.2

namespace MODE

theorem fillLoop_len_le (x0 y0 : Mat) (level : List Nat) (popsize : Nat) :
    ∀ (ks : List Nat) (acc : List (Nat → ℚ) × List (Nat → ℚ)),
      acc.1.length ≤ popsize →
      (fillLoop x0 y0 level popsize ks acc).1.length ≤ popsize := by
  intro ks
  induction ks with
  | nil => intro acc h; exact h
  | cons k ks ih =>
    intro acc h
    rw [fillLoop]
    by_cases hf : popsize ≤ acc.1.length
    · rw [if_pos hf]; exact h
    · rw [if_neg hf]
      apply ih
      simp only [List.length_append, List.length_cons, List.length_nil]
      omega

theorem fillLoop_len_eq (x0 y0 : Mat) (level : List Nat) (popsize : Nat) :
    ∀ (ks : List Nat) (acc : List (Nat → ℚ) × List (Nat → ℚ)),
      acc.1.length ≤ popsize → popsize ≤ acc.1.length + ks.length →
      (fillLoop x0 y0 level popsize ks acc).1.length = popsize := by
  intro ks
  induction ks with
  | nil =>
    intro acc h1 h2
    simp only [List.length_nil] at h2
    rw [fillLoop]
    omega
  | cons k ks ih =>
    intro acc h1 h2
    rw [fillLoop]
    by_cases hf : popsize ≤ acc.1.length
    · rw [if_pos hf]; omega
    · rw [if_neg hf]
      apply ih
      · simp only [List.length_append, List.length_cons, List.length_nil]
        omega
      · simp only [List.length_append, List.length_cons, List.length_nil] at h2 ⊢
        omega

theorem fillLoop_extends (x0 y0 : Mat) (level : List Nat) (popsize : Nat) :
    ∀ (ks : List Nat) (acc : List (Nat → ℚ) × List (Nat → ℚ)),
      List.IsPrefix acc.1 (fillLoop x0 y0 level popsize ks acc).1 ∧
      List.IsPrefix acc.2 (fillLoop x0 y0 level popsize ks acc).2 := by
  intro ks
  induction ks with
  | nil =>
    intro acc
    exact ⟨List.prefix_refl _, List.prefix_refl _⟩
  | cons k ks ih =>
    intro acc
    rw [fillLoop]
    by_cases hf : popsize ≤ acc.1.length
    · rw [if_pos hf]
      exact ⟨List.prefix_refl _, List.prefix_refl _⟩
    · rw [if_neg hf]
      refine ⟨List.IsPrefix.trans
          (List.prefix_append acc.1 [colOf x0 (level.getD k 0)]) ?_,
        List.IsPrefix.trans
          (List.prefix_append acc.2 [colOf y0 (level.getD k 0)]) ?_⟩
      · exact (ih (acc.1 ++ [colOf x0 (level.getD k 0)],
          acc.2 ++ [colOf y0 (level.getD k 0)])).1
      · exact (ih (acc.1 ++ [colOf x0 (level.getD k 0)],
          acc.2 ++ [colOf y0 (level.getD k 0)])).2

theorem admitLoop_extends (x0 y0 : Mat) (dom : Nat → ℚ) (n popsize : Nat) :
    ∀ (d : Nat) (acc : List (Nat → ℚ) × List (Nat → ℚ)),
      List.IsPrefix acc.1 (admitLoop x0 y0 dom n popsize d acc).1 ∧
      List.IsPrefix acc.2 (admitLoop x0 y0 dom n popsize d acc).2 := by
  intro d
  induction d with
  | zero =>
    intro acc
    rw [admitLoop]
    by_cases hf : acc.1.length + (levelIdx dom n 0).length ≤ popsize
    · rw [if_pos hf]
      exact ⟨List.prefix_append _ _, List.prefix_append _ _⟩
    · rw [if_neg hf]
      by_cases hl : 1 < (levelIdx dom n 0).length
      · rw [if_pos hl]
        exact ⟨(fillLoop_extends _ _ _ _ _ _).1, (fillLoop_extends _ _ _ _ _ _).2⟩
      · rw [if_neg hl]
        exact ⟨List.prefix_refl _, List.prefix_refl _⟩
  | succ d ih =>
    intro acc
    rw [admitLoop]
    by_cases hf : acc.1.length + (levelIdx dom n (d + 1)).length ≤ popsize
    · rw [if_pos hf]
      refine ⟨List.IsPrefix.trans
          (List.prefix_append acc.1 ((levelIdx dom n (d + 1)).map (colOf x0)))
          (ih (acc.1 ++ (levelIdx dom n (d + 1)).map (colOf x0),
            acc.2 ++ (levelIdx dom n (d + 1)).map (colOf y0))).1,
        List.IsPrefix.trans
          (List.prefix_append acc.2 ((levelIdx dom n (d + 1)).map (colOf y0)))
          (ih (acc.1 ++ (levelIdx dom n (d + 1)).map (colOf x0),
            acc.2 ++ (levelIdx dom n (d + 1)).map (colOf y0))).2⟩
    · rw [if_neg hf]
      by_cases hl : 1 < (levelIdx dom n (d + 1)).length
      · rw [if_pos hl]
        exact ⟨(fillLoop_extends _ _ _ _ _ _).1, (fillLoop_extends _ _ _ _ _ _).2⟩
      · rw [if_neg hl]
        exact ⟨List.prefix_refl _, List.prefix_refl _⟩

theorem admitLoop_len_le (x0 y0 : Mat) (dom : Nat → ℚ) (n popsize : Nat) :
    ∀ (d : Nat) (acc : List (Nat → ℚ) × List (Nat → ℚ)),
      acc.1.length ≤ popsize →
      (admitLoop x0 y0 dom n popsize d acc).1.length ≤ popsize := by
  intro d
  induction d with
  | zero =>
    intro acc h
    rw [admitLoop]
    by_cases hf : acc.1.length + (levelIdx dom n 0).length ≤ popsize
    · rw [if_pos hf]
      simp only [List.length_append, List.length_map]
      omega
    · rw [if_neg hf]
      by_cases hl : 1 < (levelIdx dom n 0).length
      · rw [if_pos hl]
        exact fillLoop_len_le _ _ _ _ _ _ h
      · rw [if_neg hl]; exact h
  | succ d ih =>
    intro acc h
    rw [admitLoop]
    by_cases hf : acc.1.length + (levelIdx dom n (d + 1)).length ≤ popsize
    · rw [if_pos hf]
      apply ih
      simp only [List.length_append, List.length_map, Nat.succ_eq_add_one]
      omega
    · rw [if_neg hf]
      by_cases hl : 1 < (levelIdx dom n (d + 1)).length
      · rw [if_pos hl]
        exact fillLoop_len_le _ _ _ _ _ _ h
      · rw [if_neg hl]; exact h

end MODE

namespace MODE

/-- Claim-side admission walk, following the claim/spec words for the
boundary: a non-fitting level with a single member admits that member
(compare admitLoop, where the source writes this member into a shadowed
dead index vector and admits nothing). -/
def admitLoopSpec (x0 y0 : Mat) (domination : Nat → ℚ) (n popsize : Nat) :
    Nat → List (Nat → ℚ) × List (Nat → ℚ) → List (Nat → ℚ) × List (Nat → ℚ)
  | d, acc =>
    let level := levelIdx domination n d
    if acc.1.length + level.length ≤ popsize then
      match d with
      | 0 => (acc.1 ++ level.map (colOf x0), acc.2 ++ level.map (colOf y0))
      | d' + 1 =>
        admitLoopSpec x0 y0 domination n popsize d'
          (acc.1 ++ level.map (colOf x0), acc.2 ++ level.map (colOf y0))
    else
      if 1 < level.length then
        fillLoop x0 y0 level popsize
          ((sort_index level.length
              (crowd_dist (fun r k => y0 r (level.getD k 0)) level.length)).reverse)
          acc
      else (acc.1 ++ level.map (colOf x0), acc.2 ++ level.map (colOf y0))

end MODE

/-- Concrete decision matrix for the admission-walk counterexample. -/
def c9x0 : MODE.Mat := fun _ c => (c : ℚ)

/-- Concrete objective matrix: column c holds the value c. -/
def c9y0 : MODE.Mat := fun _ c => (c : ℚ)

/-- Concrete domination scores: column 0 on level 1, column 1 on level 0. -/
def c9dom : Nat → ℚ := fun i => if i = 0 then 1 else 0

/-- Empty accumulator at the start of the admission walk. -/
def c9acc0 : List (Nat → ℚ) × List (Nat → ℚ) := ([], [])

/-- Accumulator already holding one admitted column (popsize = 1 slots full). -/
def c9acc1 : List (Nat → ℚ) × List (Nat → ℚ) := ([fun _ => 0], [fun _ => 0])

/-- C9 counterexample: with popsize 1 and two columns on levels 1 and 0, the
level-0 singleton does not fit and the source admission walk (admitLoop)
drops it — the walk ends with one admitted column, the fitting level-1
column 0 — while the claim's walk (admitLoopSpec) admits the single
member, ending with two columns, the second being column 1. -/
theorem pop_update_single_member_cex :
    (MODE.admitLoop c9x0 c9y0 c9dom 2 1 1 c9acc0).2.length = 1 ∧
    ((MODE.admitLoop c9x0 c9y0 c9dom 2 1 1 c9acc0).2.getD 0 (fun _ => 9)) 0 = 0 ∧
    (MODE.admitLoopSpec c9x0 c9y0 c9dom 2 1 1 c9acc0).2.length = 2 ∧
    ((MODE.admitLoopSpec c9x0 c9y0 c9dom 2 1 1 c9acc0).2.getD 1 (fun _ => 9)) 0
      = 1 := by
  refine ⟨by decide, by decide, by decide, by decide⟩

/-- C9 (amended): the pop_update admission walk keeps at most popsize
columns; a level that fits is appended whole, extending the accumulator;
the first non-fitting level with more than one member is admitted by
descending crowding distance until exactly popsize slots are filled; and a
non-fitting level with exactly one member admits nothing — it can only
arise when all popsize slots are already filled, so the walk returns the
accumulator unchanged. -/
theorem mode_pop_update_admission_amended
    (x0 y0 : MODE.Mat) (dom : Nat → ℚ) (n popsize d : Nat)
    (acc : List (Nat → ℚ) × List (Nat → ℚ))
    (hacc : acc.1.length ≤ popsize) :
    (MODE.admitLoop x0 y0 dom n popsize d acc).1.length ≤ popsize ∧
    (acc.1.length + (MODE.levelIdx dom n d).length ≤ popsize →
      List.IsPrefix (acc.1 ++ (MODE.levelIdx dom n d).map (MODE.colOf x0))
        (MODE.admitLoop x0 y0 dom n popsize d acc).1 ∧
      List.IsPrefix (acc.2 ++ (MODE.levelIdx dom n d).map (MODE.colOf y0))
        (MODE.admitLoop x0 y0 dom n popsize d acc).2) ∧
    (¬ (acc.1.length + (MODE.levelIdx dom n d).length ≤ popsize) →
      (1 < (MODE.levelIdx dom n d).length →
        MODE.admitLoop x0 y0 dom n popsize d acc =
          MODE.fillLoop x0 y0 (MODE.levelIdx dom n d) popsize
            ((MODE.sort_index (MODE.levelIdx dom n d).length
              (MODE.crowd_dist
                (fun r k => y0 r ((MODE.levelIdx dom n d).getD k 0))
                (MODE.levelIdx dom n d).length)).reverse) acc ∧
        (MODE.admitLoop x0 y0 dom n popsize d acc).1.length = popsize) ∧
      ((MODE.levelIdx dom n d).length = 1 →
        MODE.admitLoop x0 y0 dom n popsize d acc = acc ∧
        acc.1.length = popsize)) := by
  refine ⟨MODE.admitLoop_len_le x0 y0 dom n popsize d acc hacc, ?_, ?_⟩
  · intro hf
    cases d with
    | zero =>
      rw [ MODE.admitLoop, if_pos hf]
      exact ⟨List.prefix_refl _, List.prefix_refl _⟩
    | succ d =>
      rw [ MODE.admitLoop, if_pos hf]
      exact ⟨(MODE.admitLoop_extends x0 y0 dom n popsize d
          (acc.1 ++ (MODE.levelIdx dom n (d + 1)).map (MODE.colOf x0),
            acc.2 ++ (MODE.levelIdx dom n (d + 1)).map (MODE.colOf y0))).1,
        (MODE.admitLoop_extends x0 y0 dom n popsize d
          (acc.1 ++ (MODE.levelIdx dom n (d + 1)).map (MODE.colOf x0),
            acc.2 ++ (MODE.levelIdx dom n (d + 1)).map (MODE.colOf y0))).2⟩
  · intro hnf
    constructor
    · intro hl
      have heq : MODE.admitLoop x0 y0 dom n popsize d acc =
          MODE.fillLoop x0 y0 (MODE.levelIdx dom n d) popsize
            ((MODE.sort_index (MODE.levelIdx dom n d).length
              (MODE.crowd_dist
                (fun r k => y0 r ((MODE.levelIdx dom n d).getD k 0))
                (MODE.levelIdx dom n d).length)).reverse) acc := by
        cases d with
        | zero => rw [ MODE.admitLoop, if_neg hnf, if_pos hl]
        | succ d => rw [ MODE.admitLoop, if_neg hnf, if_pos hl]
      refine ⟨heq, ?_⟩
      rw [heq]
      apply MODE.fillLoop_len_eq x0 y0 (MODE.levelIdx dom n d) popsize _ acc hacc
      rw [List.length_reverse, MODE.sort_index_length]
      omega
    · intro h1
      have hfull : acc.1.length = popsize := by omega
      have hl2 : ¬ 1 < (MODE.levelIdx dom n d).length := by omega
      refine ⟨?_, hfull⟩
      cases d with
      | zero => rw [ MODE.admitLoop, if_neg hnf, if_neg hl2]
      | succ d => rw [ MODE.admitLoop, if_neg hnf, if_neg hl2]

/-- C9 witness: with popsize 1, an accumulator already holding one column
and the level-0 singleton of the counterexample configuration, the walk
returns the accumulator unchanged and the slots were indeed already full. -/
theorem mode_pop_update_admission_amended_witness :
    c9acc1.1.length ≤ 1 ∧
    ¬ (c9acc1.1.length + (MODE.levelIdx c9dom 2 0).length ≤ 1) ∧
    (MODE.levelIdx c9dom 2 0).length = 1 ∧
    (MODE.admitLoop c9x0 c9y0 c9dom 2 1 0 c9acc1 = c9acc1 ∧
      c9acc1.1.length = 1) := by
  refine ⟨by decide, by decide, by decide, ?_⟩
  exact ((mode_pop_update_admission_amended c9x0 c9y0 c9dom 2 1 0 c9acc1
    (by decide)).2.2 (by decide)).2 (by decide)
